import Mathlib

set_option linter.unusedSectionVars false

/-!
Verification of the apiarycd GitOps controller core against its specification.

The development shallowly embeds the Go sources:
  * `pkg/badgerfx/repository.go` and the per-domain repositories
    (`internal/stacks/repository.go`, `internal/deployments/repository.go`)
    as pure transformations of an association-list key-value store.
    A Badger read-write transaction (`db.Update`) either commits all of its
    writes or none, so every repository operation is modelled as a function
    returning the result together with the post-state; error results are
    paired with the unchanged pre-state.
  * `internal/deployments/service.go` (`Trigger`, `Rollback`) and
    `internal/stacks/service.go` (`Create`) as compositions of those
    repository operations.
  * `internal/git/service.go` (`Clone`, `Pull`, `checkDiskSpace`) as pure
    functions of an environment describing the outcome of each external
    effect (statfs, semaphore acquisition, credential loading, each
    underlying transport attempt), producing the observable event trace
    (disk check, permit acquisition, backoff sleeps, attempts) and result.

Identifiers (UUIDs) and timestamps (`time.Time`, stored as UnixNano) are
modelled as naturals; the fixed-width decimal rendering used in Badger keys
makes byte-wise key order agree with numeric order on the timestamp suffix,
and UUID strings are fixed-width, so prefix scans over one stack's index
entries see exactly that stack's entries, most recent first.
-/

namespace Apiary

/-! ## Association-list key-value store

Models the Badger keyspace restricted to one key family.  `kvSet` mirrors
`txn.Set` (replace the binding), `kvDel` mirrors `txn.Delete`, `kvGet`
mirrors `txn.Get` (`none` plays `badger.ErrKeyNotFound`). -/

def kvGet {κ α : Type} [DecidableEq κ] : List (κ × α) → κ → Option α
  | [], _ => none
  | (k', v) :: rest, k => if k' = k then some v else kvGet rest k

def kvSet {κ α : Type} [DecidableEq κ] : List (κ × α) → κ → α → List (κ × α)
  | [], k, v => [(k, v)]
  | (k', v') :: rest, k, v =>
    if k' = k then (k, v) :: rest else (k', v') :: kvSet rest k v

def kvDel {κ α : Type} [DecidableEq κ] : List (κ × α) → κ → List (κ × α)
  | [], _ => []
  | (k', v') :: rest, k =>
    if k' = k then kvDel rest k else (k', v') :: kvDel rest k

/-- Keys of an association list. -/
def kvKeys {κ α : Type} (l : List (κ × α)) : List κ := l.map Prod.fst

end Apiary


namespace Apiary

/-! ## Stacks: data model (`internal/stacks`)

`stackModel` from `internal/stacks/models.go` (badgerfx era).  UUIDs and
timestamps are naturals (see the header note).  Go maps become association
lists with pairwise-distinct keys; the Go field name `Variables` is
rendered `vars` because `variables` is reserved in Lean. -/

inductive StackStatus
  | active
  | inactive
  | error
deriving DecidableEq

/-- Rendering used in the status index key ("active"/"inactive"/"error"). -/
def StackStatus.str : StackStatus → String
  | .active => "active"
  | .inactive => "inactive"
  | .error => "error"

/-- `gitAuth` / `GitAuth`: kind ("none"/"https"/"ssh") plus credentials. -/
structure GitAuthInfo where
  type : String
  username : String
  password : String
  privateKeyPath : String
  passphrase : String
deriving DecidableEq

/-- `StackDraft` (`internal/stacks/domain.go`): the caller-supplied fields. -/
structure StackDraftRec where
  name : String
  description : String
  gitURL : String
  gitBranch : String
  gitAuth : GitAuthInfo
  composePath : String
  vars : List (String × String)
  labels : List (String × String)
deriving DecidableEq

/-- One structure serves as both the domain `Stack` and the stored
`stackModel`: the Go conversions (`toDomain`, `newStackModel`) copy fields
one-for-one, with the deviations modelled explicitly at each call site. -/
structure StackRec where
  id : Nat
  createdAt : Nat
  updatedAt : Nat
  name : String
  description : String
  gitURL : String
  gitBranch : String
  gitAuth : GitAuthInfo
  composePath : String
  vars : List (String × String)
  status : StackStatus
  lastSync : Option Nat
  lastDeploy : Option Nat
  labels : List (String × String)
deriving DecidableEq

/-- The draft part of a domain stack (Go `stack.StackDraft`). -/
def StackRec.draft (s : StackRec) : StackDraftRec :=
  { name := s.name, description := s.description, gitURL := s.gitURL,
    gitBranch := s.gitBranch, gitAuth := s.gitAuth,
    composePath := s.composePath, vars := s.vars,
    labels := s.labels }

/-- `newStackModel` (`internal/stacks/models.go`): a fresh v7 UUID, both
timestamps stamped now, status forced to `active`, sync stamps nil. -/
def newStackModelFx (d : StackDraftRec) (freshId now : Nat) : StackRec :=
  { id := freshId, createdAt := now, updatedAt := now,
    name := d.name, description := d.description, gitURL := d.gitURL,
    gitBranch := d.gitBranch, gitAuth := d.gitAuth,
    composePath := d.composePath, vars := d.vars,
    status := .active, lastSync := none, lastDeploy := none,
    labels := d.labels }

/-! ### Secondary-index keys

The Badger keys `"stack:name:"++name`, `"stack:status:"++status++":"++id`
and `"stack:label:"++esc(k)++":"++esc(v)++":"++id` are modelled as an
inductive key type: the three fixed kind segments keep the families
disjoint, and `url.QueryEscape` (which escapes `:` and `%`) makes the
label encoding injective, which is exactly what constructor injectivity
gives.  The primary key `"stack:id:"++id` is the `Nat` id itself. -/

inductive StackIdxKey
  | name (n : String)
  | status (s : StackStatus) (id : Nat)
  | label (k v : String) (id : Nat)
deriving DecidableEq

/-- `stackModel.StorageIndexes` (`internal/stacks/models.go`): name index,
status index, one label index per label entry. -/
def stackIndexes (m : StackRec) : List StackIdxKey :=
  .name m.name :: .status m.status m.id ::
    m.labels.map (fun kv => .label kv.1 kv.2 m.id)

/-- The stacks keyspace: primary records (under `stack:id:`) and secondary
index entries (index key ↦ primary key). -/
structure StackDB where
  recs : List (Nat × StackRec)
  idx : List (StackIdxKey × Nat)
deriving DecidableEq

/-- Errors surfaced by the stacks repository (`internal/stacks/errors.go`
plus the wrapped `badger.ErrKeyNotFound`). -/
inductive StErr
  | keyNotFound
  | conflict
  | notAllowed
  | updaterFailed (msg : String)
deriving DecidableEq

/-! ### badgerfx-backed repository (`internal/stacks/repository.go`,
second version, and `pkg/badgerfx/repository.go`) -/

/-- `badgerfx.Repository.CreateIndexes`: set every derived index key to the
record's primary key. -/
def fxCreateIndexes (db : StackDB) (m : StackRec) : StackDB :=
  { db with idx := (stackIndexes m).foldl (fun a ik => kvSet a ik m.id) db.idx }

/-- `badgerfx.Repository.DeleteIndexes`. -/
def fxDeleteIndexes (db : StackDB) (m : StackRec) : StackDB :=
  { db with idx := (stackIndexes m).foldl (fun a ik => kvDel a ik) db.idx }

/-- `badgerfx.Repository.Write`: create the indexes, then set the primary
record (one transaction). -/
def fxWrite (db : StackDB) (m : StackRec) : StackDB :=
  let db1 := fxCreateIndexes db m
  { db1 with recs := kvSet db1.recs m.id m }

/-- `badgerfx.Repository.ReadByIndex`: resolve the index entry to the
primary key, then perform the primary read; a miss on either hop surfaces
as `badger.ErrKeyNotFound` (here `none`). -/
def fxReadByIndex (db : StackDB) (ik : StackIdxKey) : Option StackRec :=
  match kvGet db.idx ik with
  | none => none
  | some pk => kvGet db.recs pk

/-- `stacks.Repository.Create` (badgerfx version, repository.go lines
359-383): inside one read-write transaction, `ReadByIndex` on the name
index (`Conflict` if it resolves), then `Write`.  On error the transaction
is discarded, so the pre-state is returned unchanged. -/
def stacksCreateFx (db : StackDB) (d : StackDraftRec) (freshId now : Nat) :
    Except StErr StackRec × StackDB :=
  let m := newStackModelFx d freshId now
  match fxReadByIndex db (.name m.name) with
  | some _ => (.error .conflict, db)
  | none => (.ok m, fxWrite db m)

/-- `stacks.Repository.Update` (badgerfx version, repository.go lines
406-441): read the old record, run the caller's mutator on the domain
object, rebuild the stored model via `newStackModel` from the mutated
draft fields (which stamps `status := active` and clears the sync stamps)
restoring `ID`/`CreatedAt` and stamping `UpdatedAt`, then
`DeleteIndexes(old)` followed by `Write(new)`.  Note: unlike the first
version of the repository, there is no check that the name is unchanged. -/
def stacksUpdateFx (db : StackDB) (id : Nat)
    (f : StackRec → Except String StackRec) (now : Nat) :
    Except StErr Unit × StackDB :=
  match kvGet db.recs id with
  | none => (.error .keyNotFound, db)
  | some old =>
    match f old with
    | .error e => (.error (.updaterFailed e), db)
    | .ok st =>
      let m := { newStackModelFx st.draft old.id old.createdAt with
                   updatedAt := now }
      let db1 := fxDeleteIndexes db old
      (.ok (), fxWrite db1 m)

/-- `stacks.Repository.Delete` (badgerfx version) = `badgerfx.Delete`:
read, `DeleteIndexes`, delete the primary record. -/
def stacksDeleteFx (db : StackDB) (id : Nat) : Except StErr Unit × StackDB :=
  match kvGet db.recs id with
  | none => (.error .keyNotFound, db)
  | some old =>
    let db1 := fxDeleteIndexes db old
    (.ok (), { db1 with recs := kvDel db1.recs id })

/-! ### First repository version (`internal/stacks/repository.go` lines
124-176), which rejects renames with `ErrNotAllowed`. -/

/-- `stacks.Repository.Update` (first version): read, mutate, rebuild the
model restoring `ID`/`CreatedAt`, reject with `NotAllowed` if the name
changed, otherwise set the primary record, remove the old index set and
create the new one — all in one transaction. -/
def stacksUpdateV1 (db : StackDB) (id : Nat)
    (f : StackRec → Except String StackRec) (now : Nat) :
    Except StErr Unit × StackDB :=
  match kvGet db.recs id with
  | none => (.error .keyNotFound, db)
  | some old =>
    match f old with
    | .error e => (.error (.updaterFailed e), db)
    | .ok st =>
      let m := { st with
                 id := old.id
                 createdAt := old.createdAt
                 updatedAt := now }
      if m.name ≠ old.name then (.error .notAllowed, db)
      else
        let db1 := { db with recs := kvSet db.recs m.id m }
        let db2 := fxDeleteIndexes db1 old
        (.ok (), fxCreateIndexes db2 m)

/-! ### Index-consistency invariant for the stacks store -/

/-- A record is live when it is the stored binding of its own id. -/
def LiveStack (db : StackDB) (m : StackRec) : Prop := (m.id, m) ∈ db.recs

/-- The index-consistency invariant of spec section 4.1: binding keys are
unique; every stored record sits under its own id; every index entry
resolves to a live record that derives it (no stale entries); and every
live record's derived index set is present and points back at it (no
missing entries).  All quantifiers are list-bounded, so the invariant is
decidable on concrete stores. -/
def StacksIdxOK (db : StackDB) : Prop :=
  (kvKeys db.recs).Nodup ∧
  (kvKeys db.idx).Nodup ∧
  (∀ p ∈ db.recs, (p.2).id = p.1) ∧
  (∀ e ∈ db.idx, ∃ p ∈ db.recs, p.1 = e.2 ∧ e.1 ∈ stackIndexes p.2) ∧
  (∀ p ∈ db.recs, ∀ ik ∈ stackIndexes p.2, kvGet db.idx ik = some p.1)

end Apiary

namespace Apiary

/-! ## Deployments: data model (`internal/deployments`)

`deploymentModel` / `Deployment` from `internal/deployments/models.go`
and the domain file with `MarkDeployedAt` / `MarkRolledBack`. -/

inductive DepStatus
  | pending
  | running
  | success
  | failed
  | cancelled
  | rolledBack
deriving DecidableEq

/-- `DeploymentDraft`: everything the caller supplies. -/
structure DepDraft where
  stackId : Nat
  version : String
  gitRef : String
  message : String
  vars : List (String × String)
  status : DepStatus
  startedAt : Option Nat
  completedAt : Option Nat
  errMsg : String
  logs : List String
  previousDeployment : Option Nat
deriving DecidableEq

/-- One structure for both `deploymentModel` and the domain `Deployment`
(the Go conversions copy fields one-for-one). -/
structure DepRec where
  id : Nat
  createdAt : Nat
  updatedAt : Nat
  stackId : Nat
  version : String
  gitRef : String
  message : String
  vars : List (String × String)
  status : DepStatus
  startedAt : Option Nat
  completedAt : Option Nat
  errMsg : String
  logs : List String
  previousDeployment : Option Nat
deriving DecidableEq

/-- The draft part of a domain deployment (Go `d.DeploymentDraft`). -/
def DepRec.draft (d : DepRec) : DepDraft :=
  { stackId := d.stackId, version := d.version, gitRef := d.gitRef,
    message := d.message, vars := d.vars, status := d.status,
    startedAt := d.startedAt, completedAt := d.completedAt,
    errMsg := d.errMsg, logs := d.logs,
    previousDeployment := d.previousDeployment }

/-- `newDeploymentModel`: fresh v7 UUID, created/updated stamped now, all
other fields from the draft. -/
def newDepModel (d : DepDraft) (freshId now : Nat) : DepRec :=
  { id := freshId, createdAt := now, updatedAt := now,
    stackId := d.stackId, version := d.version, gitRef := d.gitRef,
    message := d.message, vars := d.vars, status := d.status,
    startedAt := d.startedAt, completedAt := d.completedAt,
    errMsg := d.errMsg, logs := d.logs,
    previousDeployment := d.previousDeployment }

/-- `Deployment.MarkDeployedAt`. -/
def markDeployedAt (d : DepRec) (t : Nat) : DepRec :=
  { d with status := .success, completedAt := some t }

/-- `Deployment.MarkRolledBack`. -/
def markRolledBack (d : DepRec) (t : Nat) : DepRec :=
  { d with status := .rolledBack, completedAt := some t }

/-- The deployments keyspace: primary records under `deployment:id:` and
the stack index `deployment:stack:<stackID>:<createdAt UnixNano>` whose
value is the deployment id.  The index key is the pair
(stack id, creation time); within one stack's contiguous key range the
fixed-width decimal UnixNano suffix sorts byte-wise exactly as the
numeric creation time, which is what the reverse scan relies on. -/
structure DepDB where
  recs : List (Nat × DepRec)
  stackIdx : List ((Nat × Nat) × Nat)
deriving DecidableEq

/-- Deployment repository errors (`internal/deployments/errors.go` plus
the dual-update StackID guard and updater failures). -/
inductive DepErr
  | notFound
  | stackIdChanged
  | updaterFailed (msg : String)
deriving DecidableEq

/-- `deployments.Repository.createIndexes`: one stack-index entry keyed by
(StackID, CreatedAt) holding the deployment id. -/
def depCreateIndexes (db : DepDB) (m : DepRec) : DepDB :=
  { db with stackIdx := kvSet db.stackIdx (m.stackId, m.createdAt) m.id }

/-- `deployments.Repository.removeIndexes`. -/
def depRemoveIndexes (db : DepDB) (m : DepRec) : DepDB :=
  { db with stackIdx := kvDel db.stackIdx (m.stackId, m.createdAt) }

/-- `deployments.Repository.write` (and the body of `Create`): set the
primary record, then create the indexes. -/
def depWrite (db : DepDB) (m : DepRec) : DepDB :=
  depCreateIndexes { db with recs := kvSet db.recs m.id m } m

/-- `deployments.Repository.Create` (badgerfx version): build the model
from the draft and write it in one transaction. -/
def depCreate (db : DepDB) (d : DepDraft) (freshId now : Nat) :
    DepRec × DepDB :=
  let m := newDepModel d freshId now
  (m, depWrite db m)

/-- `deployments.Repository.getByID`: primary read, `NotFound` on miss. -/
def depGetByID (db : DepDB) (id : Nat) : Except DepErr DepRec :=
  match kvGet db.recs id with
  | none => .error .notFound
  | some m => .ok m

/-- Time component of a stack-index entry. -/
def entryTime (e : (Nat × Nat) × Nat) : Nat := e.1.2

/-- Insert an entry into a list kept sorted by descending creation time. -/
def insertByTime (e : (Nat × Nat) × Nat) :
    List ((Nat × Nat) × Nat) → List ((Nat × Nat) × Nat)
  | [] => [e]
  | x :: xs =>
    if entryTime x ≤ entryTime e then e :: x :: xs else x :: insertByTime e xs

/-- The stack-index entries in descending creation-time order: the order
in which the reverse Badger iterator visits one stack's contiguous key
range (`GetLatestByStack`, repository.go lines 443-493). -/
def sortByTimeDesc (l : List ((Nat × Nat) × Nat)) :
    List ((Nat × Nat) × Nat) :=
  l.foldr insertByTime []

/-- All index entries of one stack (the prefix scan range). -/
def sidEntries (db : DepDB) (sid : Nat) : List ((Nat × Nat) × Nat) :=
  db.stackIdx.filter (fun e => decide (e.1.1 = sid))

/-- The loop body of `GetLatestByStack`: walk entries most recent first;
resolve each to its record (a failed `getByID` aborts the view, which the
caller surfaces as `NotFound` because `latest` is still nil); stop at the
first record satisfying the predicate; `NotFound` if none does. -/
def scanLatest (recs : List (Nat × DepRec)) (p : DepRec → Bool) :
    List ((Nat × Nat) × Nat) → Except DepErr DepRec
  | [] => .error .notFound
  | e :: rest =>
    match kvGet recs e.2 with
    | none => .error .notFound
    | some m => if p m then .ok m else scanLatest recs p rest

/-- `deployments.Repository.GetLatestByStack` (badgerfx version): reverse
prefix scan over `deployment:stack:<sid>:`, filtered by the predicate. -/
def depGetLatestByStack (db : DepDB) (sid : Nat) (p : DepRec → Bool) :
    Except DepErr DepRec :=
  scanLatest db.recs p (sortByTimeDesc (sidEntries db sid))

/-- `deployments.Repository.Update` (badgerfx version, repository.go lines
496-543): read, mutate the domain object, reject a StackID change, rebuild
the model restoring `ID`/`CreatedAt` and stamping `UpdatedAt`, then set
the primary record and re-create the indexes.  Unlike the first repository
version there is no `removeIndexes` call, but the only index key is
derived from the immutable `StackID`/`CreatedAt`, so the write lands on
the existing entry. -/
def depUpdate (db : DepDB) (id : Nat)
    (f : DepRec → Except String DepRec) (now : Nat) :
    Except DepErr DepDB :=
  match kvGet db.recs id with
  | none => .error .notFound
  | some old =>
    match f old with
    | .error e => .error (.updaterFailed e)
    | .ok d =>
      if d.stackId ≠ old.stackId then .error .stackIdChanged
      else
        let m := { newDepModel d.draft old.id old.createdAt with
                   updatedAt := now }
        .ok (depWrite db m)

/-- `deployments.Repository.UpdateDual` (repository.go lines 545-594):
read both records, mutate both domain objects, reject a StackID change on
either, rebuild both models and write both — all inside one read-write
transaction, so either both records are updated or neither is. -/
def depUpdateDual (db : DepDB) (first second : Nat)
    (f : DepRec → DepRec → Except String (DepRec × DepRec)) (now : Nat) :
    Except DepErr DepDB :=
  match kvGet db.recs first with
  | none => .error .notFound
  | some oldF =>
    match kvGet db.recs second with
    | none => .error .notFound
    | some oldS =>
      match f oldF oldS with
      | .error e => .error (.updaterFailed e)
      | .ok (dF, dS) =>
        if dF.stackId ≠ oldF.stackId then .error .stackIdChanged
        else if dS.stackId ≠ oldS.stackId then .error .stackIdChanged
        else
          let mF := { newDepModel dF.draft oldF.id oldF.createdAt with
                      updatedAt := now }
          let mS := { newDepModel dS.draft oldS.id oldS.createdAt with
                      updatedAt := now }
          .ok (depWrite (depWrite db mF) mS)

/-- `deployments.Repository.Delete`: read, delete the primary record,
remove the indexes. -/
def depDelete (db : DepDB) (id : Nat) : Except DepErr Unit × DepDB :=
  match kvGet db.recs id with
  | none => (.error .notFound, db)
  | some old =>
    (.ok (), depRemoveIndexes { db with recs := kvDel db.recs id } old)

/-! ## Deployment lifecycle service (`internal/deployments/service.go`) -/

/-- The predicate `func(d *Deployment) bool { return d.Status == StatusSuccess }`
passed by `Trigger` and `Rollback`. -/
def succPred (d : DepRec) : Bool := decide (d.status = DepStatus.success)

/-- `Service.Rollback` (service.go lines 175-219): resolve the latest
`success` deployment, fail with `NotFound` if it has no `previous`
pointer, load the previous deployment, and flip both records in a single
`UpdateDual` transaction with one shared timestamp.  Error results are
paired with the unchanged store. -/
def svcRollback (db : DepDB) (stackID now : Nat) :
    Except DepErr (DepRec × DepRec) × DepDB :=
  match depGetLatestByStack db stackID succPred with
  | .error e => (.error e, db)
  | .ok latest =>
    match latest.previousDeployment with
    | none => (.error .notFound, db)
    | some pid =>
      match depGetByID db pid with
      | .error e => (.error e, db)
      | .ok previous =>
        match depUpdateDual db latest.id previous.id
            (fun d1 d2 => .ok (markRolledBack d1 now, markDeployedAt d2 now))
            now with
        | .error e => (.error e, db)
        | .ok db2 => (.ok (latest, previous), db2)

/-- Merge of stack variables with request overrides:
`maps.Clone(stack.Variables)` then `maps.Copy(variables, req.Variables)` —
the request binding replaces the stack binding key-for-key. -/
def mergeVars (base ov : List (String × String)) : List (String × String) :=
  ov.foldl (fun acc kv => kvSet acc kv.1 kv.2) base

/-- `DeploymentRequest`. -/
structure DepRequest where
  stackId : Nat
  vars : List (String × String)

/-- Errors surfaced by `Service.Trigger`. -/
inductive TrigErr
  | stackNotFound
  | dep (e : DepErr)
deriving DecidableEq

/-- `Service.Trigger` (service.go lines 99-173): get the stack, resolve
the latest `success` deployment (its absence — `ErrNotFound` — is not an
error), merge variables with request overrides, create the deployment
with status `pending` and `StartedAt := now` and `previous` linking the
resolved deployment if any (`create` re-checks the stack), then the
placeholder execution marks it deployed at `now2`.  Returns the created
record (as `create` returned it, before the completion update). -/
def svcTrigger (sdb : StackDB) (db : DepDB) (req : DepRequest)
    (freshId now now2 : Nat) : Except TrigErr (DepRec × DepDB) :=
  match kvGet sdb.recs req.stackId with
  | none => .error .stackNotFound
  | some stack =>
    let latest : Option DepRec :=
      match depGetLatestByStack db stack.id succPred with
      | .ok d => some d
      | .error _ => none
    let previousId : Option Nat := latest.map (fun d => d.id)
    let draft : DepDraft :=
      { stackId := stack.id, version := "placeholder",
        gitRef := "placeholder", message := "placeholder",
        vars := mergeVars stack.vars req.vars, status := .pending,
        startedAt := some now, completedAt := none, errMsg := "",
        logs := [], previousDeployment := previousId }
    match kvGet sdb.recs draft.stackId with
    | none => .error .stackNotFound
    | some _ =>
      let created := depCreate db draft freshId now
      match depUpdate created.2 created.1.id
          (fun d => .ok (markDeployedAt d now2)) now2 with
      | .error e => .error (.dep e)
      | .ok db2 => .ok (created.1, db2)

/-! ### Index-consistency invariant for the deployments store -/

/-- A deployment record is live when it is the stored binding of its id. -/
def LiveDep (db : DepDB) (d : DepRec) : Prop := (d.id, d) ∈ db.recs

/-- Index consistency for the deployments store: unique binding keys,
records stored under their own ids, every index entry resolves to a live
record with the entry's stack id and creation time, every live record has
its index entry, and (stack id, creation time) determines the record —
matching the uniqueness of the Badger key the entry models. -/
def DepIdxOK (db : DepDB) : Prop :=
  (kvKeys db.recs).Nodup ∧
  (kvKeys db.stackIdx).Nodup ∧
  (∀ p ∈ db.recs, (p.2).id = p.1) ∧
  (∀ e ∈ db.stackIdx,
     ∃ p ∈ db.recs, p.1 = e.2 ∧ (p.2).stackId = e.1.1 ∧
       (p.2).createdAt = e.1.2) ∧
  (∀ p ∈ db.recs,
     kvGet db.stackIdx ((p.2).stackId, (p.2).createdAt) = some p.1) ∧
  (∀ p ∈ db.recs, ∀ q ∈ db.recs,
     (p.2).stackId = (q.2).stackId → (p.2).createdAt = (q.2).createdAt →
       p.2 = q.2)

/-- The latest successful deployment of a stack, stated declaratively:
live, owned by the stack, status `success`, and no other live `success`
deployment of the stack is more recent. -/
def LatestSuccess (db : DepDB) (sid : Nat) (d : DepRec) : Prop :=
  LiveDep db d ∧ d.stackId = sid ∧ d.status = .success ∧
  ∀ p ∈ db.recs, (p.2).stackId = sid → (p.2).status = .success →
    (p.2).createdAt ≤ d.createdAt

/-- No live deployment of the stack has status `success`. -/
def NoSuccessDep (db : DepDB) (sid : Nat) : Prop :=
  ∀ p ∈ db.recs, (p.2).stackId = sid → (p.2).status ≠ .success

end Apiary

namespace Apiary

/-! ## Version-control operations service (`internal/git/service.go`)

`Clone` and `Pull` interleave pure control flow with external effects.
The model fixes the outcome of every effect in an environment record and
computes the observable event trace — disk-space check, permit
acquisition, backoff sleeps, transport attempts — together with the
result.  Underlying go-git errors are opaque strings. -/

/-- Opaque error produced by the underlying library or operating system. -/
abbrev GoErr := String

/-- Observable events of one Clone/Pull call. -/
inductive GitEv
  | diskCheck
  | acquire
  | attempt (n : Nat)
  | sleep (secs : Nat)
deriving DecidableEq

/-- Errors surfaced by `Service.Clone` (`internal/git/errors.go`). -/
inductive CloneErr
  | diskSpace
  | acquireFailed (e : GoErr)
  | authFailed (e : GoErr)
  | repositoryAlreadyExists
  | cloneFailed (e : GoErr)
deriving DecidableEq

/-- Environment of one `Clone` call: configuration plus the outcome of
each external effect.  `availBytes = none` models a failing
`syscall.Statfs`; `attemptResult n` is the error (if any) of the n-th
`git.PlainCloneContext` call — a context cancelled or expired before
attempt n makes every `attemptResult` from n on return the context
error, since the clone call fails fast on a dead context. -/
structure CloneEnv where
  minDiskSpaceBytes : Int
  availBytes : Option Nat
  acquireResult : Option GoErr
  authResult : Option GoErr
  attemptResult : Nat → Option GoErr
  configRetryAttempts : Nat

/-- The per-request fields of `CloneRequest` the control flow inspects. -/
structure CloneReq where
  hasAuth : Bool
  directoryExists : Bool
  retryAttempts : Nat
deriving DecidableEq

/-- `Service.checkDiskSpace` (service.go lines 1455-1480): skip when no
positive threshold is configured; a failing space query is logged and
does not block; otherwise fail with `ErrDiskSpace` when the available
bytes fall below the threshold. -/
def checkDiskSpace (env : CloneEnv) : Option CloneErr :=
  if env.minDiskSpaceBytes ≤ 0 then none
  else
    match env.availBytes with
    | none => none
    | some avail =>
      if (avail : Int) < env.minDiskSpaceBytes then some .diskSpace else none

/-- Retry-budget resolution (service.go lines 179-186): request value,
else configured value, else 3. -/
def effectiveRetryAttempts (req cfg : Nat) : Nat :=
  if req = 0 then (if cfg = 0 then 3 else cfg) else req

/-- The Clone retry loop (service.go lines 188-211), as a function of the
current attempt index and the number of retries still allowed.  Before
every retry the loop sleeps `attempt` seconds (linearly increasing
backoff); the loop itself never consults the context — only the
underlying attempt can observe cancellation. -/
def runAttempts (f : Nat → Option GoErr) :
    Nat → Nat → List GitEv × Except GoErr Unit
  | attempt, 0 =>
    match f attempt with
    | none => ([.attempt attempt], .ok ())
    | some e => ([.attempt attempt], .error e)
  | attempt, remaining + 1 =>
    match f attempt with
    | none => ([.attempt attempt], .ok ())
    | some _ =>
      let next := runAttempts f (attempt + 1) remaining
      (.attempt attempt :: .sleep (attempt + 1) :: next.1, next.2)

/-- `Service.Clone` (service.go lines 122-231): disk-space guard, permit
acquisition, option building, authentication building (only when the
request carries an authenticator), rejection of an existing target
directory, optional timeout derivation, then the retry loop; exhaustion
wraps the last error as `ErrCloneFailed`. -/
def svcClone (env : CloneEnv) (req : CloneReq) :
    List GitEv × Except CloneErr Unit :=
  match checkDiskSpace env with
  | some e => ([.diskCheck], .error e)
  | none =>
    match env.acquireResult with
    | some e => ([.diskCheck], .error (.acquireFailed e))
    | none =>
      match (if req.hasAuth then env.authResult else none) with
      | some e => ([.diskCheck, .acquire], .error (.authFailed e))
      | none =>
        if req.directoryExists then
          ([.diskCheck, .acquire], .error .repositoryAlreadyExists)
        else
          let r := effectiveRetryAttempts req.retryAttempts
            env.configRetryAttempts
          let run := runAttempts env.attemptResult 0 r
          ([.diskCheck, .acquire] ++ run.1,
           match run.2 with
           | .ok _ => .ok ()
           | .error e => .error (.cloneFailed e))

/-- Outcome of one `worktree.PullContext` attempt; "already up to date"
is treated as success by the loop. -/
inductive PullOutcome
  | success
  | alreadyUpToDate
  | failure (e : GoErr)

/-- The Pull retry loop (service.go lines 317-340): identical structure to
the Clone loop, except that `NoErrAlreadyUpToDate` breaks the loop as a
success; exhaustion wraps the last error as `ErrPullFailed`. -/
def pullRunAttempts (g : Nat → PullOutcome) :
    Nat → Nat → List GitEv × Except GoErr Unit
  | attempt, 0 =>
    match g attempt with
    | .failure e => ([.attempt attempt], .error e)
    | _ => ([.attempt attempt], .ok ())
  | attempt, remaining + 1 =>
    match g attempt with
    | .failure _ =>
      let next := pullRunAttempts g (attempt + 1) remaining
      (.attempt attempt :: .sleep (attempt + 1) :: next.1, next.2)
    | _ => ([.attempt attempt], .ok ())

/-- The trace the retry loop produces when every attempt from index `a`
fails: attempt a, sleep a+1, attempt a+1, ..., through the last allowed
attempt. -/
def retryTraceFrom (a : Nat) : Nat → List GitEv
  | 0 => [.attempt a]
  | r + 1 => .attempt a :: .sleep (a + 1) :: retryTraceFrom (a + 1) r

/-! ## Stack lifecycle service (`internal/stacks/service.go` and
`internal/stacks/git_adapter.go`) -/

/-- Errors of the validation path. -/
inductive ValErr
  | tempDirFailed (e : GoErr)
  | validationFailed (e : CloneErr)
deriving DecidableEq

/-- Environment of `gitAdapter.ValidateRepository`: the outcome of
`os.MkdirTemp` and the clone environment, plus whether `convertAuth`
produces an authenticator (auth kind ssh or https). -/
structure ValidateEnv where
  mkdirTempResult : Option GoErr
  cloneEnv : CloneEnv
  hasAuth : Bool

/-- `gitAdapter.ValidateRepository` (git_adapter.go lines 67-90): create a
scratch directory with `os.MkdirTemp` — which creates the directory on
disk — then call `Service.Clone` with that directory as the target, so
the clone request always sees `directoryExists = true`.  (The request
carries depth 1 and no retry override, hence `retryAttempts = 0`.) -/
def gitAdapterValidateRepository (venv : ValidateEnv) : Except ValErr Unit :=
  match venv.mkdirTempResult with
  | some e => .error (.tempDirFailed e)
  | none =>
    match (svcClone venv.cloneEnv
        { hasAuth := venv.hasAuth, directoryExists := true,
          retryAttempts := 0 }).2 with
    | .error e => .error (.validationFailed e)
    | .ok _ => .ok ()

/-- `convertAuth` returns an authenticator only for the ssh and https
kinds. -/
def hasAuthOf (a : GitAuthInfo) : Bool := a.type = "ssh" ∨ a.type = "https"

/-- Errors of `stacks.Service.Create`. -/
inductive CreateErr
  | validation (e : ValErr)
  | store (e : StErr)
  | clone (e : CloneErr)
deriving DecidableEq

/-- Environment of one `stacks.Service.Create` call. -/
structure StackSvcEnv where
  validateEnv : ValidateEnv
  cloneEnv : CloneEnv
  stackDirExists : Bool

/-- `stacks.Service.Create` (service.go lines 28-73): when a repository
URL is present, validate it first and fail before anything is persisted;
then create the record (name uniqueness enforced in the repository
transaction); then, when a URL is present, clone into the per-stack
directory — deleting the just-created record (best effort) on clone
failure — and stamp the sync time via the repository update (whose
result is only logged). -/
def svcStacksCreate (db : StackDB) (d : StackDraftRec) (env : StackSvcEnv)
    (freshId now syncNow : Nat) : Except CreateErr StackRec × StackDB :=
  let proceed : Unit → Except CreateErr StackRec × StackDB := fun _ =>
    match stacksCreateFx db d freshId now with
    | (.error e, db1) => (.error (.store e), db1)
    | (.ok stack, db1) =>
      if d.gitURL ≠ "" then
        match (svcClone env.cloneEnv
            { hasAuth := hasAuthOf d.gitAuth,
              directoryExists := env.stackDirExists,
              retryAttempts := 0 }).2 with
        | .error e =>
          (.error (.clone e), (stacksDeleteFx db1 stack.id).2)
        | .ok _ =>
          (.ok stack,
           (stacksUpdateFx db1 stack.id
             (fun s => .ok { s with lastSync := some syncNow }) syncNow).2)
      else (.ok stack, db1)
  if d.gitURL ≠ "" then
    match gitAdapterValidateRepository env.validateEnv with
    | .error e => (.error (.validation e), db)
    | .ok _ => proceed ()
  else proceed ()

end Apiary

namespace Apiary

/-! ## Operation sequences over the two stores (spec sections 4.1 and 8,
index consistency)

One constructor per repository operation; `apply` runs the operation and
keeps the post-state (the pre-state when the transaction aborted).  The
side conditions under which consistency is claimed are exactly the
environment guarantees of the running system: created ids are fresh
(v7 UUIDs), no two deployments of one stack share a creation timestamp
(distinct UnixNano), and a stack update does not move the name onto a
name owned by a different live stack (the rename ban / service-level name
uniqueness of the spec). -/

inductive StackOp
  | create (d : StackDraftRec) (freshId now : Nat)
  | update (id : Nat) (f : StackRec → Except String StackRec) (now : Nat)
  | delete (id : Nat)

def applyStackOp (db : StackDB) : StackOp → StackDB
  | .create d i n => (stacksCreateFx db d i n).2
  | .update id f n => (stacksUpdateFx db id f n).2
  | .delete id => (stacksDeleteFx db id).2

/-- Environment side condition of one stack operation (see above). -/
def stackOpOK (db : StackDB) : StackOp → Bool
  | .create _ i _ => (kvGet db.recs i).isNone
  | .update id f _ =>
    db.recs.all fun p =>
      if p.1 = id then
        match f p.2 with
        | .ok st => db.recs.all fun q => decide (q.2.name = st.name → q.1 = id)
        | .error _ => true
      else true
  | .delete _ => true

def stackOpsOK (db : StackDB) : List StackOp → Bool
  | [] => true
  | op :: ops => stackOpOK db op && stackOpsOK (applyStackOp db op) ops

inductive DepOp
  | create (d : DepDraft) (freshId now : Nat)
  | update (id : Nat) (f : DepRec → Except String DepRec) (now : Nat)
  | delete (id : Nat)

def applyDepOp (db : DepDB) : DepOp → DepDB
  | .create d i n => (depCreate db d i n).2
  | .update id f n =>
    match depUpdate db id f n with
    | .ok db2 => db2
    | .error _ => db
  | .delete id => (depDelete db id).2

/-- Environment side condition of one deployment operation: the created
id is fresh and the created (stack, creation-time) index key is not in
use by a live record. -/
def depOpOK (db : DepDB) : DepOp → Bool
  | .create d i now =>
    (kvGet db.recs i).isNone &&
      db.recs.all fun p =>
        decide ((p.2).stackId = d.stackId → (p.2).createdAt ≠ now)
  | .update _ _ _ => true
  | .delete _ => true

def depOpsOK (db : DepDB) : List DepOp → Bool
  | [] => true
  | op :: ops => depOpOK db op && depOpsOK (applyDepOp db op) ops

end Apiary

namespace Apiary

/-! ## Sample stores used by concrete witnesses -/

/-- A stack named "web" with id 1. -/
def stackWeb : StackRec :=
  { id := 1, createdAt := 10, updatedAt := 10, name := "web",
    description := "", gitURL := "", gitBranch := "main",
    gitAuth := { type := "none", username := "", password := "",
                 privateKeyPath := "", passphrase := "" },
    composePath := "docker-compose.yml", vars := [("TAG", "v1")],
    status := .active, lastSync := none, lastDeploy := none, labels := [] }

/-- A consistent one-stack store holding `stackWeb`. -/
def stackDbWeb : StackDB :=
  { recs := [(1, stackWeb)],
    idx := [(.name "web", 1), (.status .active 1, 1)] }

/-- Deployment 10 of stack 1: successful, no previous deployment. -/
def depD0 : DepRec :=
  { id := 10, createdAt := 5, updatedAt := 5, stackId := 1, version := "v1",
    gitRef := "main", message := "", vars := [], status := .success,
    startedAt := some 5, completedAt := some 6, errMsg := "", logs := [],
    previousDeployment := none }

/-- Deployment 11 of stack 1: successful, previous points at 10. -/
def depD1 : DepRec :=
  { id := 11, createdAt := 7, updatedAt := 7, stackId := 1, version := "v2",
    gitRef := "main", message := "", vars := [], status := .success,
    startedAt := some 7, completedAt := some 8, errMsg := "", logs := [],
    previousDeployment := some 10 }

/-- A consistent deployment store holding `depD0` and `depD1`. -/
def depDbTwo : DepDB :=
  { recs := [(10, depD0), (11, depD1)],
    stackIdx := [((1, 5), 10), ((1, 7), 11)] }

end Apiary

namespace Apiary

section KVLemmas

variable {κ α : Type} [DecidableEq κ]

theorem kvKeys_nil : kvKeys ([] : List (κ × α)) = [] := rfl

theorem kvKeys_cons (e : κ × α) (l : List (κ × α)) :
    kvKeys (e :: l) = e.1 :: kvKeys l := rfl

theorem kvGet_kvSet (l : List (κ × α)) (k : κ) (v : α) (k' : κ) :
    kvGet (kvSet l k v) k' = if k = k' then some v else kvGet l k' := by
  induction l with
  | nil => by_cases h : k = k' <;> simp [kvSet, kvGet, h]
  | cons hd tl ih =>
    obtain ⟨k0, v0⟩ := hd
    by_cases h0 : k0 = k
    · subst h0
      by_cases h : k0 = k' <;> simp [kvSet, kvGet, h]
    · by_cases h : k0 = k'
      · subst h
        have hne : ¬ k = k0 := fun he => h0 he.symm
        simp [kvSet, kvGet, h0, hne]
      · simp [kvSet, kvGet, h0, h, ih]

theorem kvGet_kvDel (l : List (κ × α)) (k : κ) (k' : κ) :
    kvGet (kvDel l k) k' = if k = k' then none else kvGet l k' := by
  induction l with
  | nil => by_cases h : k = k' <;> simp [kvDel, kvGet, h]
  | cons hd tl ih =>
    obtain ⟨k0, v0⟩ := hd
    by_cases h0 : k0 = k
    · subst h0
      by_cases h : k0 = k'
      · subst h
        simp [kvDel, ih]
      · simp [kvDel, kvGet, h, ih]
    · by_cases h : k0 = k'
      · subst h
        have hne : ¬ k = k0 := fun he => h0 he.symm
        simp [kvDel, kvGet, h0, hne]
      · simp [kvDel, kvGet, h0, h, ih]

theorem mem_of_kvGet_eq_some {l : List (κ × α)} {k : κ} {v : α}
    (h : kvGet l k = some v) : (k, v) ∈ l := by
  induction l with
  | nil => simp [kvGet] at h
  | cons hd tl ih =>
    obtain ⟨k0, v0⟩ := hd
    by_cases h0 : k0 = k
    · subst h0
      simp [kvGet] at h
      simp [h]
    · simp [kvGet, h0] at h
      exact List.mem_cons_of_mem _ (ih h)

theorem kvGet_eq_some_of_mem {l : List (κ × α)} {k : κ} {v : α}
    (hnd : (kvKeys l).Nodup) (h : (k, v) ∈ l) : kvGet l k = some v := by
  induction l with
  | nil => simp at h
  | cons hd tl ih =>
    obtain ⟨k0, v0⟩ := hd
    rw [kvKeys_cons] at hnd
    have hnd1 := List.nodup_cons.mp hnd
    rcases List.mem_cons.mp h with h1 | h1
    · have hk : k0 = k := (congrArg Prod.fst h1).symm
      have hv : v0 = v := (congrArg Prod.snd h1).symm
      simp [kvGet, hk, hv]
    · have hk0 : k0 ≠ k := by
        intro he
        exact hnd1.1 (he ▸ (List.mem_map.mpr ⟨(k, v), h1, rfl⟩))
      simp [kvGet, hk0]
      exact ih hnd1.2 h1

theorem kvGet_eq_none_of_not_mem_keys {l : List (κ × α)} {k : κ}
    (h : k ∉ kvKeys l) : kvGet l k = none := by
  induction l with
  | nil => simp [kvGet]
  | cons hd tl ih =>
    obtain ⟨k0, v0⟩ := hd
    rw [kvKeys_cons, List.mem_cons, not_or] at h
    have h1 : k0 ≠ k := fun he => h.1 he.symm
    simp [kvGet, h1]
    exact ih h.2

theorem not_mem_keys_of_kvGet_eq_none {l : List (κ × α)} {k : κ}
    (h : kvGet l k = none) : k ∉ kvKeys l := by
  induction l with
  | nil => simp [kvKeys_nil]
  | cons hd tl ih =>
    obtain ⟨k0, v0⟩ := hd
    by_cases h0 : k0 = k
    · simp [kvGet, h0] at h
    · simp [kvGet, h0] at h
      rw [kvKeys_cons, List.mem_cons, not_or]
      exact ⟨fun he => h0 he.symm, ih h⟩

theorem mem_kvKeys_kvSet {l : List (κ × α)} {k : κ} {v : α} {a : κ}
    (h : a ∈ kvKeys (kvSet l k v)) : a = k ∨ a ∈ kvKeys l := by
  induction l with
  | nil =>
    simp [kvSet, kvKeys] at h
    exact Or.inl h
  | cons hd tl ih =>
    obtain ⟨k0, v0⟩ := hd
    by_cases h0 : k0 = k
    · subst h0
      have he : kvSet ((k0, v0) :: tl) k0 v = (k0, v) :: tl := by simp [kvSet]
      rw [he, kvKeys_cons] at h
      rw [kvKeys_cons]
      rcases List.mem_cons.mp h with h | h
      · exact Or.inl h
      · exact Or.inr (List.mem_cons.mpr (Or.inr h))
    · have he : kvSet ((k0, v0) :: tl) k v = (k0, v0) :: kvSet tl k v := by
        simp [kvSet, h0]
      rw [he, kvKeys_cons] at h
      rw [kvKeys_cons]
      rcases List.mem_cons.mp h with h | h
      · exact Or.inr (List.mem_cons.mpr (Or.inl h))
      · rcases ih h with h | h
        · exact Or.inl h
        · exact Or.inr (List.mem_cons.mpr (Or.inr h))

theorem kvKeys_kvSet_nodup {l : List (κ × α)} (k : κ) (v : α)
    (hnd : (kvKeys l).Nodup) : (kvKeys (kvSet l k v)).Nodup := by
  induction l with
  | nil => simp [kvSet, kvKeys]
  | cons hd tl ih =>
    obtain ⟨k0, v0⟩ := hd
    rw [kvKeys_cons] at hnd
    have hnd1 := List.nodup_cons.mp hnd
    by_cases h0 : k0 = k
    · subst h0
      have he : kvSet ((k0, v0) :: tl) k0 v = (k0, v) :: tl := by simp [kvSet]
      rw [he, kvKeys_cons]
      exact List.nodup_cons.mpr hnd1
    · have he : kvSet ((k0, v0) :: tl) k v = (k0, v0) :: kvSet tl k v := by
        simp [kvSet, h0]
      rw [he, kvKeys_cons]
      refine List.nodup_cons.mpr ⟨?_, ih hnd1.2⟩
      intro hc
      rcases mem_kvKeys_kvSet hc with h | h
      · exact h0 h
      · exact hnd1.1 h

theorem kvKeys_kvDel_sublist (l : List (κ × α)) (k : κ) :
    List.Sublist (kvKeys (kvDel l k)) (kvKeys l) := by
  induction l with
  | nil => simp [kvDel, kvKeys]
  | cons hd tl ih =>
    obtain ⟨k0, v0⟩ := hd
    by_cases h0 : k0 = k
    · have he : kvDel ((k0, v0) :: tl) k = kvDel tl k := by simp [kvDel, h0]
      rw [he, kvKeys_cons]
      exact ih.trans (List.sublist_cons_self _ _)
    · have he : kvDel ((k0, v0) :: tl) k = (k0, v0) :: kvDel tl k := by
        simp [kvDel, h0]
      rw [he, kvKeys_cons, kvKeys_cons]
      exact ih.cons₂ k0

theorem kvKeys_kvDel_nodup {l : List (κ × α)} (k : κ)
    (hnd : (kvKeys l).Nodup) : (kvKeys (kvDel l k)).Nodup :=
  (kvKeys_kvDel_sublist l k).nodup hnd

end KVLemmas

end Apiary

namespace Apiary

/-! ## Theorems: version-control operations service -/

theorem runAttempts_all_fail (f : Nat → Option GoErr) (errs : Nat → GoErr)
    (hf : ∀ n, f n = some (errs n)) :
    ∀ R a, runAttempts f a R = (retryTraceFrom a R, .error (errs (a + R))) := by
  intro R
  induction R with
  | zero =>
    intro a
    simp [runAttempts, hf a, retryTraceFrom]
  | succ r ih =>
    intro a
    have h1 := ih (a + 1)
    have h2 : a + 1 + r = a + (r + 1) := by omega
    rw [h2] at h1
    simp [runAttempts, hf a, retryTraceFrom, h1]

/-- Claim C5: a Clone with `RetryAttempts = 2` against a transport that
fails on every attempt performs exactly 3 attempts (indices 0, 1, 2),
sleeps `attempt` seconds immediately before each retry, and returns
`ErrCloneFailed` wrapping the last attempt's error. -/
theorem clone_retry_budget_two_attempts_three
    (env : CloneEnv) (req : CloneReq) (errs : Nat → GoErr)
    (hdisk : checkDiskSpace env = none)
    (hacq : env.acquireResult = none)
    (hauth : req.hasAuth = true → env.authResult = none)
    (hdir : req.directoryExists = false)
    (hretry : req.retryAttempts = 2)
    (hfail : ∀ n, env.attemptResult n = some (errs n)) :
    svcClone env req =
      ([.diskCheck, .acquire, .attempt 0, .sleep 1, .attempt 1, .sleep 2,
        .attempt 2], .error (.cloneFailed (errs 2))) := by
  have hrun := runAttempts_all_fail env.attemptResult errs hfail 2 0
  have hauth2 : (if req.hasAuth then env.authResult else none) = none := by
    by_cases h : req.hasAuth
    · simp [h, hauth h]
    · simp [h]
  simp [svcClone, hdisk, hacq, hauth2, hdir, hretry, effectiveRetryAttempts,
    hrun, retryTraceFrom]

theorem clone_retry_budget_two_attempts_three_witness :
    svcClone
      { minDiskSpaceBytes := 0, availBytes := some 0, acquireResult := none,
        authResult := none, attemptResult := fun n => some (toString n),
        configRetryAttempts := 0 }
      { hasAuth := false, directoryExists := false, retryAttempts := 2 } =
      ([.diskCheck, .acquire, .attempt 0, .sleep 1, .attempt 1, .sleep 2,
        .attempt 2], .error (.cloneFailed (toString 2))) :=
  clone_retry_budget_two_attempts_three _ _ (fun n => toString n) rfl rfl
    (fun h => nomatch h) rfl rfl (fun _ => rfl)

/-- Claim C8 (counterexample): with the context cancelled before the first
attempt — so every underlying clone call fails fast with the context
error — the retry loop still sleeps 1s and 2s and performs attempts 1 and
2 after the cancellation, instead of aborting immediately as claimed. -/
theorem cancelled_clone_retries_counterexample :
    svcClone
      { minDiskSpaceBytes := 0, availBytes := none, acquireResult := none,
        authResult := none,
        attemptResult := fun _ => some "context canceled",
        configRetryAttempts := 0 }
      { hasAuth := false, directoryExists := false, retryAttempts := 2 } =
      ([.diskCheck, .acquire, .attempt 0, .sleep 1, .attempt 1, .sleep 2,
        .attempt 2], .error (.cloneFailed "context canceled")) := rfl

/-- Claim C8 (amended): cancellation or deadline expiry does not abort the
retry loop of Clone or Pull.  Each subsequent underlying attempt fails
fast with the context error, but the loop still sleeps the linearly
increasing backoff before every remaining attempt, performs all of them,
and only then returns the exhaustion error wrapping the context error. -/
theorem cancelled_context_sleeps_through_backoff
    (R : Nat) (ctxErr : GoErr) (f : Nat → Option GoErr)
    (g : Nat → PullOutcome)
    (hf : ∀ n, f n = some ctxErr) (hg : ∀ n, g n = .failure ctxErr) :
    runAttempts f 0 R = (retryTraceFrom 0 R, .error ctxErr) ∧
    pullRunAttempts g 0 R = (retryTraceFrom 0 R, .error ctxErr) := by
  have hclone : ∀ r a, runAttempts f a r = (retryTraceFrom a r, .error ctxErr) := by
    intro r
    induction r with
    | zero => intro a; simp [runAttempts, hf a, retryTraceFrom]
    | succ n ih => intro a; simp [runAttempts, hf a, retryTraceFrom, ih (a + 1)]
  have hpull : ∀ r a, pullRunAttempts g a r = (retryTraceFrom a r, .error ctxErr) := by
    intro r
    induction r with
    | zero => intro a; simp [pullRunAttempts, hg a, retryTraceFrom]
    | succ n ih => intro a; simp [pullRunAttempts, hg a, retryTraceFrom, ih (a + 1)]
  exact ⟨hclone R 0, hpull R 0⟩

theorem cancelled_context_sleeps_through_backoff_witness :
    runAttempts (fun _ => some "context canceled") 0 2 =
      ([.attempt 0, .sleep 1, .attempt 1, .sleep 2, .attempt 2],
        .error "context canceled") ∧
    pullRunAttempts (fun _ => .failure "context canceled") 0 2 =
      ([.attempt 0, .sleep 1, .attempt 1, .sleep 2, .attempt 2],
        .error "context canceled") :=
  cancelled_context_sleeps_through_backoff 2 "context canceled" _ _
    (fun _ => rfl) (fun _ => rfl)

/-- Claim C9: with a positive configured minimum free-space threshold and
a successful space query reporting fewer available bytes, Clone fails
with `ErrDiskSpace` before acquiring the concurrency permit and before
any clone attempt; with no positive threshold, or when the space query
itself fails, the guard lets the operation proceed. -/
theorem disk_space_guard_fail_fast (env : CloneEnv) (req : CloneReq) :
    (∀ avail, env.availBytes = some avail → 0 < env.minDiskSpaceBytes →
      (avail : Int) < env.minDiskSpaceBytes →
      svcClone env req = ([.diskCheck], .error .diskSpace) ∧
      GitEv.acquire ∉ (svcClone env req).1 ∧
      (∀ n, GitEv.attempt n ∉ (svcClone env req).1)) ∧
    (env.minDiskSpaceBytes ≤ 0 → checkDiskSpace env = none) ∧
    (env.availBytes = none → checkDiskSpace env = none) := by
  refine ⟨?_, ?_, ?_⟩
  · intro avail hav hpos hlt
    have hchk : checkDiskSpace env = some .diskSpace := by
      simp [checkDiskSpace, hav, hlt]
      omega
    have hres : svcClone env req = ([.diskCheck], .error .diskSpace) := by
      simp [svcClone, hchk]
    refine ⟨hres, ?_, ?_⟩
    · rw [hres]; simp
    · intro n; rw [hres]; simp
  · intro hle
    simp [checkDiskSpace, hle]
  · intro hnone
    by_cases hle : env.minDiskSpaceBytes ≤ 0
    · simp [checkDiskSpace, hle]
    · simp [checkDiskSpace, hle, hnone]

theorem disk_space_guard_fail_fast_witness :
    svcClone
      { minDiskSpaceBytes := 10, availBytes := some 5, acquireResult := none,
        authResult := none, attemptResult := fun _ => none,
        configRetryAttempts := 0 }
      { hasAuth := false, directoryExists := false, retryAttempts := 0 } =
      ([.diskCheck], .error .diskSpace) :=
  ((disk_space_guard_fail_fast _ _).1 5 rfl (by norm_num) (by norm_num)).1

/-- Claim C10: `gitAdapter.ValidateRepository` creates the scratch
directory before passing it to Clone as the target, and Clone rejects any
pre-existing target directory, so the validation path returns an error in
every environment; consequently `stacks.Service.Create` with a non-empty
repository URL always fails before any record is persisted (the store is
returned unchanged). -/
theorem repository_validation_always_fails :
    (∀ (env : CloneEnv) (req : CloneReq), req.directoryExists = true →
      ∃ e, (svcClone env req).2 = Except.error e) ∧
    (∀ venv : ValidateEnv, ∃ e, gitAdapterValidateRepository venv = .error e) ∧
    (∀ (db : StackDB) (d : StackDraftRec) (env : StackSvcEnv)
        (freshId now syncNow : Nat), d.gitURL ≠ "" →
      ∃ e, svcStacksCreate db d env freshId now syncNow = (.error e, db)) := by
  have hclone : ∀ (env : CloneEnv) (req : CloneReq),
      req.directoryExists = true →
      ∃ e, (svcClone env req).2 = Except.error e := by
    intro env req hdir
    unfold svcClone
    cases h1 : checkDiskSpace env with
    | some e => exact ⟨e, rfl⟩
    | none =>
      cases h2 : env.acquireResult with
      | some e => exact ⟨.acquireFailed e, rfl⟩
      | none =>
        cases h3 : (if req.hasAuth then env.authResult else none) with
        | some e => exact ⟨.authFailed e, rfl⟩
        | none => exact ⟨.repositoryAlreadyExists, by simp [hdir]⟩
  have hval : ∀ venv : ValidateEnv,
      ∃ e, gitAdapterValidateRepository venv = .error e := by
    intro venv
    unfold gitAdapterValidateRepository
    cases h0 : venv.mkdirTempResult with
    | some e => exact ⟨.tempDirFailed e, rfl⟩
    | none =>
      obtain ⟨e, he⟩ := hclone venv.cloneEnv
        { hasAuth := venv.hasAuth, directoryExists := true,
          retryAttempts := 0 } rfl
      exact ⟨.validationFailed e, by rw [he]⟩
  refine ⟨hclone, hval, ?_⟩
  intro db d env freshId now syncNow hurl
  obtain ⟨e, he⟩ := hval env.validateEnv
  exact ⟨.validation e, by simp [svcStacksCreate, hurl, he]⟩

theorem repository_validation_always_fails_witness :
    ∃ e, svcStacksCreate
      { recs := [], idx := [] }
      { name := "web", description := "", gitURL := "https://example/repo.git",
        gitBranch := "main",
        gitAuth := { type := "none", username := "", password := "",
                     privateKeyPath := "", passphrase := "" },
        composePath := "docker-compose.yml", vars := [], labels := [] }
      { validateEnv :=
          { mkdirTempResult := none,
            cloneEnv :=
              { minDiskSpaceBytes := 0, availBytes := none,
                acquireResult := none, authResult := none,
                attemptResult := fun _ => none, configRetryAttempts := 0 },
            hasAuth := false },
        cloneEnv :=
          { minDiskSpaceBytes := 0, availBytes := none, acquireResult := none,
            authResult := none, attemptResult := fun _ => none,
            configRetryAttempts := 0 },
        stackDirExists := false }
      1 100 101 = (.error e, { recs := [], idx := [] }) :=
  (repository_validation_always_fails).2.2 _ _ _ 1 100 101 (by decide)

end Apiary

namespace Apiary

/-! ## Theorems: stack store (uniqueness, rename) -/

/-- Claim C4: creating a stack whose name is already carried by a live
stack fails with `Conflict` and leaves the store — primary records and
index entries alike — unchanged; the name check (`ReadByIndex`) and the
write happen inside the same read-write transaction, modelled here by
`stacksCreateFx` being a single atomic transition. -/
theorem create_duplicate_name_conflict
    (db : StackDB) (d : StackDraftRec) (freshId now : Nat) (s : StackRec)
    (hok : StacksIdxOK db) (hs : LiveStack db s) (hname : s.name = d.name) :
    stacksCreateFx db d freshId now = (.error .conflict, db) := by
  obtain ⟨hnd1, hnd2, hids, hsound, hcompl⟩ := hok
  have hidx : kvGet db.idx (.name s.name) = some s.id :=
    hcompl (s.id, s) hs (.name s.name) (by simp [stackIndexes])
  have hrec : kvGet db.recs s.id = some s := kvGet_eq_some_of_mem hnd1 hs
  have hread : fxReadByIndex db
      (.name (newStackModelFx d freshId now).name) = some s := by
    have hn : (newStackModelFx d freshId now).name = s.name := by
      simp [newStackModelFx, hname]
    rw [hn]
    simp [fxReadByIndex, hidx, hrec]
  simp [stacksCreateFx, hread]

theorem create_duplicate_name_conflict_witness :
    stacksCreateFx stackDbWeb
      { name := "web", description := "again", gitURL := "",
        gitBranch := "main",
        gitAuth := { type := "none", username := "", password := "",
                     privateKeyPath := "", passphrase := "" },
        composePath := "c.yml", vars := [], labels := [] } 2 20 =
      (.error .conflict, stackDbWeb) :=
  create_duplicate_name_conflict stackDbWeb _ 2 20 stackWeb
    (by unfold StacksIdxOK; decide) (by unfold LiveStack; decide) (by decide)

/-- Claim C3 (code bug evaluation): the first version of
`stacks.Repository.Update` rejects a name change with `ErrNotAllowed` and
leaves the store untouched, but the badgerfx version — the one the
current service is wired to — applies the rename: on the same one-stack
store, renaming "web" to "api" succeeds, rewrites the record under the
new name and moves the name index, contradicting the claimed (and
spec-mandated) rename ban. -/
theorem badgerfx_update_permits_rename :
    stacksUpdateV1 stackDbWeb 1
      (fun s => .ok { s with name := "api" }) 30 =
      (.error .notAllowed, stackDbWeb) ∧
    (stacksUpdateFx stackDbWeb 1
      (fun s => .ok { s with name := "api" }) 30).1 = .ok () ∧
    (kvGet (stacksUpdateFx stackDbWeb 1
      (fun s => .ok { s with name := "api" }) 30).2.recs 1).map
        (fun m => m.name) = some "api" ∧
    kvGet (stacksUpdateFx stackDbWeb 1
      (fun s => .ok { s with name := "api" }) 30).2.idx (.name "api") =
      some 1 ∧
    kvGet (stacksUpdateFx stackDbWeb 1
      (fun s => .ok { s with name := "api" }) 30).2.idx (.name "web") =
      none :=
  ⟨rfl, rfl, rfl, rfl, rfl⟩

end Apiary

namespace Apiary

/-! ## Theorems: deployment store scan -/

theorem mem_insertByTime (e : (Nat × Nat) × Nat) :
    ∀ (l : List ((Nat × Nat) × Nat)) (a),
      a ∈ insertByTime e l ↔ a = e ∨ a ∈ l := by
  intro l
  induction l with
  | nil => intro a; simp [insertByTime]
  | cons x xs ih =>
    intro a
    by_cases h : entryTime x ≤ entryTime e
    · simp [insertByTime, h, List.mem_cons]
    · simp only [insertByTime, if_neg h, List.mem_cons, ih a]
      tauto

theorem sorted_insertByTime (e : (Nat × Nat) × Nat)
    (l : List ((Nat × Nat) × Nat))
    (hpw : List.Pairwise (fun a b => entryTime b ≤ entryTime a) l) :
    List.Pairwise (fun a b => entryTime b ≤ entryTime a)
      (insertByTime e l) := by
  induction l with
  | nil => simp [insertByTime]
  | cons x xs ih =>
    rw [List.pairwise_cons] at hpw
    by_cases h : entryTime x ≤ entryTime e
    · simp only [insertByTime, if_pos h]
      refine List.pairwise_cons.mpr ⟨?_, List.pairwise_cons.mpr hpw⟩
      intro b hb
      rcases List.mem_cons.mp hb with rfl | hb
      · exact h
      · exact le_trans (hpw.1 b hb) h
    · simp only [insertByTime, if_neg h]
      refine List.pairwise_cons.mpr ⟨?_, ih hpw.2⟩
      intro b hb
      rcases (mem_insertByTime e xs b).mp hb with rfl | hb
      · exact le_of_not_le h
      · exact hpw.1 b hb

theorem mem_sortByTimeDesc (l : List ((Nat × Nat) × Nat)) (a : (Nat × Nat) × Nat) :
    a ∈ sortByTimeDesc l ↔ a ∈ l := by
  induction l with
  | nil => simp [sortByTimeDesc]
  | cons x xs ih =>
    have : sortByTimeDesc (x :: xs) = insertByTime x (sortByTimeDesc xs) := rfl
    rw [this, mem_insertByTime, ih, List.mem_cons]

theorem sorted_sortByTimeDesc (l : List ((Nat × Nat) × Nat)) :
    List.Pairwise (fun a b => entryTime b ≤ entryTime a)
      (sortByTimeDesc l) := by
  induction l with
  | nil => simp [sortByTimeDesc]
  | cons x xs ih =>
    have : sortByTimeDesc (x :: xs) = insertByTime x (sortByTimeDesc xs) := rfl
    rw [this]
    exact sorted_insertByTime x _ ih

theorem scanLatest_finds (recs : List (Nat × DepRec)) (sid : Nat) (d : DepRec)
    (hd : kvGet recs d.id = some d) (hsucc : succPred d = true)
    (hsid : d.stackId = sid)
    (hinj : ∀ m, kvGet recs m.id = some m → m.stackId = sid →
      m.createdAt = d.createdAt → m = d) :
    ∀ L : List ((Nat × Nat) × Nat),
      List.Pairwise (fun a b => entryTime b ≤ entryTime a) L →
      (∀ e ∈ L, e.1.1 = sid) →
      (∀ e ∈ L, ∃ m, kvGet recs e.2 = some m ∧ m.id = e.2 ∧
        m.stackId = e.1.1 ∧ m.createdAt = e.1.2) →
      (∀ e ∈ L, ∀ m, kvGet recs e.2 = some m → succPred m = true →
        entryTime e ≤ d.createdAt) →
      ((sid, d.createdAt), d.id) ∈ L →
      scanLatest recs succPred L = .ok d := by
  intro L
  induction L with
  | nil =>
    intro _ _ _ _ hmem
    simp at hmem
  | cons e rest ih =>
    intro hpw hsids hsound hmax hmem
    obtain ⟨m, hm, hmid, hmsid, hmtime⟩ := hsound e (by simp)
    rw [List.pairwise_cons] at hpw
    by_cases hp : succPred m = true
    · have h1 : entryTime e ≤ d.createdAt := hmax e (by simp) m hm hp
      have h2 : d.createdAt ≤ entryTime e := by
        rcases List.mem_cons.mp hmem with he | hrest
        · rw [← he]
          exact le_refl _
        · exact hpw.1 _ hrest
      have hteq : entryTime e = d.createdAt := le_antisymm h1 h2
      have hmlive : kvGet recs m.id = some m := by rw [hmid]; exact hm
      have hmd : m = d := by
        refine hinj m hmlive ?_ ?_
        · rw [hmsid]
          exact hsids e (by simp)
        · rw [hmtime]
          exact hteq
      subst hmd
      simp [scanLatest, hm, hp]
    · have hne : ((sid, d.createdAt), d.id) ≠ e := by
        intro he
        have : kvGet recs d.id = some m := by rw [← he] at hm; exact hm
        rw [hd] at this
        have hmd : d = m := by injection this
        rw [← hmd] at hp
        exact hp hsucc
      have hrest : ((sid, d.createdAt), d.id) ∈ rest := by
        rcases List.mem_cons.mp hmem with he | h
        · exact absurd he hne
        · exact h
      have htail := ih hpw.2 (fun x hx => hsids x (by simp [hx]))
        (fun x hx => hsound x (by simp [hx]))
        (fun x hx => hmax x (by simp [hx])) hrest
      simp [scanLatest, hm, hp, htail]

theorem scanLatest_none (recs : List (Nat × DepRec))
    (L : List ((Nat × Nat) × Nat))
    (hns : ∀ e ∈ L, ∀ m, kvGet recs e.2 = some m → succPred m = false) :
    scanLatest recs succPred L = .error .notFound := by
  induction L with
  | nil => simp [scanLatest]
  | cons e rest ih =>
    cases hm : kvGet recs e.2 with
    | none => simp [scanLatest, hm]
    | some m =>
      have hp := hns e (by simp) m hm
      have htail := ih (fun x hx => hns x (by simp [hx]))
      simp [scanLatest, hm, hp, htail]

theorem latest_success_scan (db : DepDB) (sid : Nat) (d : DepRec)
    (hok : DepIdxOK db) (hls : LatestSuccess db sid d) :
    depGetLatestByStack db sid succPred = .ok d := by
  obtain ⟨hnd1, hnd2, hids, hsound, hcompl, hinj⟩ := hok
  obtain ⟨hlive, hsid, hstat, hmax⟩ := hls
  have hd : kvGet db.recs d.id = some d := kvGet_eq_some_of_mem hnd1 hlive
  have hsucc : succPred d = true := by simp [succPred, hstat]
  have hmemL : ∀ e, e ∈ sortByTimeDesc (sidEntries db sid) →
      e ∈ db.stackIdx ∧ e.1.1 = sid := by
    intro e he
    rw [mem_sortByTimeDesc] at he
    have := List.mem_filter.mp he
    exact ⟨this.1, of_decide_eq_true this.2⟩
  have hsoundL : ∀ e, e ∈ db.stackIdx →
      ∃ m, kvGet db.recs e.2 = some m ∧ m.id = e.2 ∧
        m.stackId = e.1.1 ∧ m.createdAt = e.1.2 := by
    intro e he
    obtain ⟨p, hp, hpk, hpsid, hptime⟩ := hsound e he
    have hpid : (p.2).id = p.1 := hids p hp
    refine ⟨p.2, ?_, by rw [hpid, hpk], hpsid, hptime⟩
    have : (e.2, p.2) ∈ db.recs := by
      rw [← hpk]
      exact hp
    exact kvGet_eq_some_of_mem hnd1 this
  apply scanLatest_finds db.recs sid d hd hsucc hsid
  · intro m hm hmsid hmtime
    have hmem : (m.id, m) ∈ db.recs := mem_of_kvGet_eq_some hm
    have hdm : (d.id, d) ∈ db.recs := hlive
    exact hinj (m.id, m) hmem (d.id, d) hdm (by rw [hmsid, hsid])
      (by rw [hmtime])
  · exact sorted_sortByTimeDesc _
  · intro e he
    exact (hmemL e he).2
  · intro e he
    exact hsoundL e (hmemL e he).1
  · intro e he m hm hp
    obtain ⟨m2, hm2, hm2id, hm2sid, hm2time⟩ := hsoundL e (hmemL e he).1
    have hmm : m = m2 := by
      rw [hm] at hm2
      exact Option.some.inj hm2
    subst hmm
    have hmemr : (e.2, m) ∈ db.recs := mem_of_kvGet_eq_some hm
    have : m.createdAt ≤ d.createdAt := by
      refine hmax (e.2, m) hmemr ?_ ?_
      · rw [hm2sid, (hmemL e he).2]
      · simpa [succPred] using hp
    calc entryTime e = m.createdAt := hm2time.symm
      _ ≤ d.createdAt := this
  · have hidx : kvGet db.stackIdx (d.stackId, d.createdAt) = some d.id :=
      hcompl (d.id, d) hlive
    have hmemidx : ((d.stackId, d.createdAt), d.id) ∈ db.stackIdx :=
      mem_of_kvGet_eq_some hidx
    rw [mem_sortByTimeDesc]
    apply List.mem_filter.mpr
    constructor
    · rw [← hsid]
      exact hmemidx
    · simp

theorem no_success_scan (db : DepDB) (sid : Nat)
    (hok : DepIdxOK db) (hns : NoSuccessDep db sid) :
    depGetLatestByStack db sid succPred = .error .notFound := by
  obtain ⟨hnd1, hnd2, hids, hsound, hcompl, hinj⟩ := hok
  apply scanLatest_none
  intro e he m hm
  rw [mem_sortByTimeDesc] at he
  have hfil := List.mem_filter.mp he
  have hesid : e.1.1 = sid := of_decide_eq_true hfil.2
  obtain ⟨p, hp, hpk, hpsid, hptime⟩ := hsound e hfil.1
  have hpid : (p.2).id = p.1 := hids p hp
  have hget : kvGet db.recs e.2 = some p.2 := by
    apply kvGet_eq_some_of_mem hnd1
    rw [← hpk]
    exact hp
  have hmp : m = p.2 := by
    rw [hm] at hget
    exact Option.some.inj hget
  subst hmp
  have hnot : (p.2).status ≠ .success := hns p hp (by rw [hpsid, hesid])
  simp [succPred, hnot]

end Apiary

namespace Apiary

/-! ## Theorems: rollback -/

theorem rolledBack_model (d : DepRec) (now : Nat) :
    ({ newDepModel (markRolledBack d now).draft d.id d.createdAt with
        updatedAt := now } : DepRec) =
      { d with
        status := DepStatus.rolledBack
        completedAt := some now
        updatedAt := now } := rfl

theorem deployedAt_model (d : DepRec) (now : Nat) :
    ({ newDepModel (markDeployedAt d now).draft d.id d.createdAt with
        updatedAt := now } : DepRec) =
      { d with
        status := DepStatus.success
        completedAt := some now
        updatedAt := now } := rfl

/-- Claim C1: on a stack whose latest `success` deployment `d1` carries a
`previous` pointer to a stored deployment `d0`, `Rollback` updates both
records in one store transaction — afterwards `d1` is `rolled_back` and
`d0` is `success`, both completed-at stamps carry the same instant, every
other record is untouched — and returns the pair `(d1, d0)`. -/
theorem rollback_flips_latest_and_previous
    (db : DepDB) (sid now : Nat) (d1 d0 : DepRec)
    (hok : DepIdxOK db) (hlatest : LatestSuccess db sid d1)
    (hprev : d1.previousDeployment = some d0.id)
    (hlive0 : LiveDep db d0) (hne : d0.id ≠ d1.id) :
    ∃ db2, svcRollback db sid now = (.ok (d1, d0), db2) ∧
      kvGet db2.recs d1.id =
        some { d1 with
               status := DepStatus.rolledBack
               completedAt := some now
               updatedAt := now } ∧
      kvGet db2.recs d0.id =
        some { d0 with
               status := DepStatus.success
               completedAt := some now
               updatedAt := now } ∧
      (∀ k, k ≠ d1.id → k ≠ d0.id → kvGet db2.recs k = kvGet db.recs k) := by
  have hd1 : kvGet db.recs d1.id = some d1 :=
    kvGet_eq_some_of_mem hok.1 hlatest.1
  have hd0 : kvGet db.recs d0.id = some d0 :=
    kvGet_eq_some_of_mem hok.1 hlive0
  have hscan := latest_success_scan db sid d1 hok hlatest
  have hdual : depUpdateDual db d1.id d0.id
      (fun a b => .ok (markRolledBack a now, markDeployedAt b now)) now =
      .ok (depWrite (depWrite db
        { d1 with
          status := DepStatus.rolledBack
          completedAt := some now
          updatedAt := now })
        { d0 with
          status := DepStatus.success
          completedAt := some now
          updatedAt := now }) := by
    simp only [depUpdateDual, hd1, hd0]
    rw [if_neg (by simp [markRolledBack]), if_neg (by simp [markDeployedAt])]
    rw [rolledBack_model, deployedAt_model]
  have hroll : svcRollback db sid now =
      (.ok (d1, d0), depWrite (depWrite db
        { d1 with
          status := DepStatus.rolledBack
          completedAt := some now
          updatedAt := now })
        { d0 with
          status := DepStatus.success
          completedAt := some now
          updatedAt := now }) := by
    simp only [svcRollback, hscan, hprev, depGetByID, hd0, hdual]
  refine ⟨_, hroll, ?_, ?_, ?_⟩
  · show kvGet (kvSet (kvSet db.recs d1.id _) d0.id _) d1.id = _
    rw [kvGet_kvSet, if_neg hne, kvGet_kvSet, if_pos rfl]
  · show kvGet (kvSet (kvSet db.recs d1.id _) d0.id _) d0.id = _
    rw [kvGet_kvSet, if_pos rfl]
  · intro k hk1 hk0
    show kvGet (kvSet (kvSet db.recs d1.id _) d0.id _) k = _
    rw [kvGet_kvSet, if_neg (fun h => hk0 h.symm), kvGet_kvSet,
      if_neg (fun h => hk1 h.symm)]

theorem rollback_flips_latest_and_previous_witness :
    ∃ db2, svcRollback depDbTwo 1 9 = (.ok (depD1, depD0), db2) ∧
      kvGet db2.recs depD1.id =
        some { depD1 with
               status := DepStatus.rolledBack
               completedAt := some 9
               updatedAt := 9 } ∧
      kvGet db2.recs depD0.id =
        some { depD0 with
               status := DepStatus.success
               completedAt := some 9
               updatedAt := 9 } ∧
      (∀ k, k ≠ depD1.id → k ≠ depD0.id →
        kvGet db2.recs k = kvGet depDbTwo.recs k) :=
  rollback_flips_latest_and_previous depDbTwo 1 9 depD1 depD0
    (by unfold DepIdxOK; decide)
    (by unfold LatestSuccess LiveDep; decide)
    (by decide) (by unfold LiveDep; decide) (by decide)

/-- Claim C2: on a stack whose latest `success` deployment has no
`previous` pointer, `Rollback` fails with `NotFound` and the store is
returned unchanged — no deployment record is modified. -/
theorem rollback_without_history_notfound
    (db : DepDB) (sid now : Nat) (d1 : DepRec)
    (hok : DepIdxOK db) (hlatest : LatestSuccess db sid d1)
    (hprev : d1.previousDeployment = none) :
    svcRollback db sid now = (.error .notFound, db) := by
  have hscan := latest_success_scan db sid d1 hok hlatest
  simp only [svcRollback, hscan, hprev]

theorem rollback_without_history_notfound_witness :
    svcRollback { recs := [(10, depD0)], stackIdx := [((1, 5), 10)] } 1 9 =
      (.error .notFound, { recs := [(10, depD0)], stackIdx := [((1, 5), 10)] }) :=
  rollback_without_history_notfound _ 1 9 depD0
    (by unfold DepIdxOK; decide)
    (by unfold LatestSuccess LiveDep; decide)
    (by decide)

end Apiary

namespace Apiary

/-! ## Theorems: trigger -/

theorem kvGet_mergeVars :
    ∀ (ov base : List (String × String)), (kvKeys ov).Nodup → ∀ k,
      kvGet (mergeVars base ov) k =
        match kvGet ov k with
        | some v => some v
        | none => kvGet base k
  | [], base, _, k => by simp [mergeVars, kvGet]
  | (k0, v0) :: rest, base, hnd, k => by
    rw [kvKeys_cons] at hnd
    have hnd1 := List.nodup_cons.mp hnd
    have hstep : mergeVars base ((k0, v0) :: rest) =
        mergeVars (kvSet base k0 v0) rest := rfl
    rw [hstep, kvGet_mergeVars rest (kvSet base k0 v0) hnd1.2 k]
    by_cases hk : k0 = k
    · subst hk
      have hz : kvGet rest k0 = none :=
        kvGet_eq_none_of_not_mem_keys hnd1.1
      have hb : kvGet (kvSet base k0 v0) k0 = some v0 := by
        rw [kvGet_kvSet, if_pos rfl]
      simp [kvGet, hz, hb]
    · have hb : kvGet (kvSet base k0 v0) k = kvGet base k := by
        rw [kvGet_kvSet, if_neg hk]
      have hc : kvGet ((k0, v0) :: rest) k = kvGet rest k := by
        simp [kvGet, hk]
      rw [hb, hc]

theorem trigger_after_scan
    (sdb : StackDB) (db : DepDB) (req : DepRequest)
    (freshId now now2 : Nat) (stack : StackRec)
    (hstack : kvGet sdb.recs req.stackId = some stack)
    (hsid : stack.id = req.stackId)
    (res : Except DepErr DepRec)
    (hscan : depGetLatestByStack db stack.id succPred = res) :
    svcTrigger sdb db req freshId now now2 =
      (let draft : DepDraft :=
        { stackId := stack.id, version := "placeholder",
          gitRef := "placeholder", message := "placeholder",
          vars := mergeVars stack.vars req.vars, status := .pending,
          startedAt := some now, completedAt := none, errMsg := "",
          logs := [],
          previousDeployment := res.toOption.map (fun d => d.id) }
       let m := newDepModel draft freshId now
       let m2 : DepRec :=
         { newDepModel (markDeployedAt m now2).draft m.id m.createdAt with
           updatedAt := now2 }
       .ok (m, depWrite (depWrite db m) m2)) := by
  have hstack2 : kvGet sdb.recs stack.id = some stack := by
    rw [hsid]
    exact hstack
  cases res with
  | ok dL =>
    simp only [svcTrigger, hstack, hscan, hstack2, Except.toOption,
      Option.map, depCreate, depWrite, depCreateIndexes, depUpdate,
      kvGet_kvSet, markDeployedAt]
    simp
  | error e =>
    simp only [svcTrigger, hstack, hscan, hstack2, Except.toOption,
      Option.map, depCreate, depWrite, depCreateIndexes, depUpdate,
      kvGet_kvSet, markDeployedAt]
    simp

/-- Claim C6: for every Trigger request, the created deployment's
variable map is the stack's variables overridden key-for-key by the
request's variables (request wins), its status is `pending` with
started-at the current instant, and its `previous` pointer is the id of
the stack's most recent `success` deployment, or nil when no such
deployment exists — which is not an error. -/
theorem trigger_pending_vars_and_previous
    (sdb : StackDB) (db : DepDB) (req : DepRequest)
    (freshId now now2 : Nat) (stack : StackRec)
    (hstack : kvGet sdb.recs req.stackId = some stack)
    (hsid : stack.id = req.stackId)
    (hok : DepIdxOK db)
    (hnd : (kvKeys req.vars).Nodup) :
    (∀ dL, LatestSuccess db stack.id dL →
      ∃ d db2, svcTrigger sdb db req freshId now now2 = .ok (d, db2) ∧
        d.status = .pending ∧ d.startedAt = some now ∧
        d.previousDeployment = some dL.id ∧
        (∀ k, kvGet d.vars k =
          match kvGet req.vars k with
          | some v => some v
          | none => kvGet stack.vars k)) ∧
    (NoSuccessDep db stack.id →
      ∃ d db2, svcTrigger sdb db req freshId now now2 = .ok (d, db2) ∧
        d.status = .pending ∧ d.startedAt = some now ∧
        d.previousDeployment = none ∧
        (∀ k, kvGet d.vars k =
          match kvGet req.vars k with
          | some v => some v
          | none => kvGet stack.vars k)) := by
  constructor
  · intro dL hls
    have hscan := latest_success_scan db stack.id dL hok hls
    have heq := trigger_after_scan sdb db req freshId now now2 stack hstack
      hsid _ hscan
    refine ⟨_, _, heq, rfl, rfl, rfl, ?_⟩
    intro k
    exact kvGet_mergeVars req.vars stack.vars hnd k
  · intro hns
    have hscan := no_success_scan db stack.id hok hns
    have heq := trigger_after_scan sdb db req freshId now now2 stack hstack
      hsid _ hscan
    refine ⟨_, _, heq, rfl, rfl, rfl, ?_⟩
    intro k
    exact kvGet_mergeVars req.vars stack.vars hnd k

theorem trigger_pending_vars_and_previous_witness :
    ∃ d db2, svcTrigger stackDbWeb depDbTwo
        { stackId := 1, vars := [("TAG", "v2")] } 12 30 31 = .ok (d, db2) ∧
      d.status = .pending ∧ d.startedAt = some 30 ∧
      d.previousDeployment = some depD1.id ∧
      (∀ k, kvGet d.vars k =
        match kvGet [("TAG", "v2")] k with
        | some v => some v
        | none => kvGet stackWeb.vars k) :=
  (trigger_pending_vars_and_previous stackDbWeb depDbTwo _ 12 30 31 stackWeb
    (by decide) (by decide) (by unfold DepIdxOK; decide) (by decide)).1 depD1
    (by unfold LatestSuccess LiveDep; decide)

end Apiary

namespace Apiary

/-! ## Additional store lemmas for index consistency -/

section KVMore

variable {κ α : Type} [DecidableEq κ]

theorem mem_kvSet_self (l : List (κ × α)) (k : κ) (v : α) :
    (k, v) ∈ kvSet l k v := by
  induction l with
  | nil => simp [kvSet]
  | cons hd tl ih =>
    obtain ⟨k0, v0⟩ := hd
    by_cases h0 : k0 = k
    · simp [kvSet, h0]
    · simp [kvSet, h0]
      right
      exact ih

theorem mem_kvSet_weak {l : List (κ × α)} {k : κ} {v : α} {a : κ × α}
    (h : a ∈ kvSet l k v) : a = (k, v) ∨ a ∈ l := by
  induction l with
  | nil => simpa [kvSet] using h
  | cons hd tl ih =>
    obtain ⟨k0, v0⟩ := hd
    by_cases h0 : k0 = k
    · rw [show kvSet ((k0, v0) :: tl) k v = (k, v) :: tl by simp [kvSet, h0]]
        at h
      rcases List.mem_cons.mp h with h | h
      · exact Or.inl h
      · exact Or.inr (List.mem_cons.mpr (Or.inr h))
    · rw [show kvSet ((k0, v0) :: tl) k v = (k0, v0) :: kvSet tl k v by
        simp [kvSet, h0]] at h
      rcases List.mem_cons.mp h with h | h
      · exact Or.inr (List.mem_cons.mpr (Or.inl h))
      · rcases ih h with h | h
        · exact Or.inl h
        · exact Or.inr (List.mem_cons.mpr (Or.inr h))

theorem mem_kvSet_of_mem_ne {l : List (κ × α)} {k : κ} {v : α} {a : κ × α}
    (ha : a ∈ l) (hne : a.1 ≠ k) : a ∈ kvSet l k v := by
  induction l with
  | nil => simp at ha
  | cons hd tl ih =>
    obtain ⟨k0, v0⟩ := hd
    by_cases h0 : k0 = k
    · rw [show kvSet ((k0, v0) :: tl) k v = (k, v) :: tl by simp [kvSet, h0]]
      rcases List.mem_cons.mp ha with h | h
      · exact absurd ((congrArg Prod.fst h).trans h0) hne
      · exact List.mem_cons.mpr (Or.inr h)
    · rw [show kvSet ((k0, v0) :: tl) k v = (k0, v0) :: kvSet tl k v by
        simp [kvSet, h0]]
      rcases List.mem_cons.mp ha with h | h
      · exact List.mem_cons.mpr (Or.inl h)
      · exact List.mem_cons.mpr (Or.inr (ih h))

theorem mem_kvSet_strong {l : List (κ × α)} {k : κ} {v : α} {a : κ × α}
    (hnd : (kvKeys l).Nodup) (h : a ∈ kvSet l k v) :
    a = (k, v) ∨ (a ∈ l ∧ a.1 ≠ k) := by
  induction l with
  | nil =>
    simp [kvSet] at h
    exact Or.inl h
  | cons hd tl ih =>
    obtain ⟨k0, v0⟩ := hd
    rw [kvKeys_cons] at hnd
    have hnd1 := List.nodup_cons.mp hnd
    by_cases h0 : k0 = k
    · subst h0
      rw [show kvSet ((k0, v0) :: tl) k0 v = (k0, v) :: tl by simp [kvSet]]
        at h
      rcases List.mem_cons.mp h with h | h
      · exact Or.inl h
      · refine Or.inr ⟨List.mem_cons.mpr (Or.inr h), ?_⟩
        intro he
        exact hnd1.1 (he ▸ List.mem_map.mpr ⟨a, h, rfl⟩)
    · rw [show kvSet ((k0, v0) :: tl) k v = (k0, v0) :: kvSet tl k v by
        simp [kvSet, h0]] at h
      rcases List.mem_cons.mp h with h | h
      · refine Or.inr ⟨List.mem_cons.mpr (Or.inl h), ?_⟩
        rw [h]
        exact h0
      · rcases ih hnd1.2 h with h | h
        · exact Or.inl h
        · exact Or.inr ⟨List.mem_cons.mpr (Or.inr h.1), h.2⟩

theorem mem_kvDel {l : List (κ × α)} {k : κ} {a : κ × α}
    (h : a ∈ kvDel l k) : a ∈ l ∧ a.1 ≠ k := by
  induction l with
  | nil => simp [kvDel] at h
  | cons hd tl ih =>
    obtain ⟨k0, v0⟩ := hd
    by_cases h0 : k0 = k
    · rw [show kvDel ((k0, v0) :: tl) k = kvDel tl k by simp [kvDel, h0]] at h
      exact ⟨List.mem_cons.mpr (Or.inr (ih h).1), (ih h).2⟩
    · rw [show kvDel ((k0, v0) :: tl) k = (k0, v0) :: kvDel tl k by
        simp [kvDel, h0]] at h
      rcases List.mem_cons.mp h with h | h
      · refine ⟨List.mem_cons.mpr (Or.inl h), ?_⟩
        rw [h]
        exact h0
      · exact ⟨List.mem_cons.mpr (Or.inr (ih h).1), (ih h).2⟩

theorem mem_kvDel_of_ne {l : List (κ × α)} {k : κ} {a : κ × α}
    (ha : a ∈ l) (hne : a.1 ≠ k) : a ∈ kvDel l k := by
  induction l with
  | nil => simp at ha
  | cons hd tl ih =>
    obtain ⟨k0, v0⟩ := hd
    by_cases h0 : k0 = k
    · rw [show kvDel ((k0, v0) :: tl) k = kvDel tl k by simp [kvDel, h0]]
      rcases List.mem_cons.mp ha with h | h
      · exact absurd ((congrArg Prod.fst h).trans h0) hne
      · exact ih h
    · rw [show kvDel ((k0, v0) :: tl) k = (k0, v0) :: kvDel tl k by
        simp [kvDel, h0]]
      rcases List.mem_cons.mp ha with h | h
      · exact List.mem_cons.mpr (Or.inl h)
      · exact List.mem_cons.mpr (Or.inr (ih h))

theorem kvSet_eq_of_kvGet {l : List (κ × α)} {k : κ} {v : α}
    (h : kvGet l k = some v) : kvSet l k v = l := by
  induction l with
  | nil => simp [kvGet] at h
  | cons hd tl ih =>
    obtain ⟨k0, v0⟩ := hd
    by_cases h0 : k0 = k
    · subst h0
      simp [kvGet] at h
      simp [kvSet, h]
    · simp [kvGet, h0] at h
      simp [kvSet, h0, ih h]

theorem kvGet_unique {l : List (κ × α)} {k : κ} {v1 v2 : α}
    (hnd : (kvKeys l).Nodup) (h1 : (k, v1) ∈ l) (h2 : (k, v2) ∈ l) :
    v1 = v2 := by
  have e1 := kvGet_eq_some_of_mem hnd h1
  have e2 := kvGet_eq_some_of_mem hnd h2
  rw [e1] at e2
  exact Option.some.inj e2

theorem kvGet_setFold (ks : List κ) (v : α) (idx : List (κ × α)) (k : κ) :
    kvGet (ks.foldl (fun a ik => kvSet a ik v) idx) k =
      if k ∈ ks then some v else kvGet idx k := by
  induction ks generalizing idx with
  | nil => simp
  | cons k0 rest ih =>
    simp only [List.foldl_cons]
    rw [ih (kvSet idx k0 v)]
    by_cases hk : k ∈ rest
    · simp [hk]
    · by_cases h0 : k0 = k
      · simp [hk, h0, kvGet_kvSet]
      · have : ¬ k = k0 := fun he => h0 he.symm
        simp [hk, this, kvGet_kvSet, h0]

theorem kvGet_delFold (ks : List κ) (idx : List (κ × α)) (k : κ) :
    kvGet (ks.foldl (fun a ik => kvDel a ik) idx) k =
      if k ∈ ks then none else kvGet idx k := by
  induction ks generalizing idx with
  | nil => simp
  | cons k0 rest ih =>
    simp only [List.foldl_cons]
    rw [ih (kvDel idx k0)]
    by_cases hk : k ∈ rest
    · simp [hk]
    · by_cases h0 : k0 = k
      · simp [hk, h0, kvGet_kvDel]
      · have : ¬ k = k0 := fun he => h0 he.symm
        simp [hk, this, kvGet_kvDel, h0]

theorem setFold_keys_nodup (ks : List κ) (v : α) {idx : List (κ × α)}
    (hnd : (kvKeys idx).Nodup) :
    (kvKeys (ks.foldl (fun a ik => kvSet a ik v) idx)).Nodup := by
  induction ks generalizing idx with
  | nil => simpa
  | cons k0 rest ih => exact ih (kvKeys_kvSet_nodup k0 v hnd)

theorem delFold_keys_nodup (ks : List κ) {idx : List (κ × α)}
    (hnd : (kvKeys idx).Nodup) :
    (kvKeys (ks.foldl (fun a ik => kvDel a ik) idx)).Nodup := by
  induction ks generalizing idx with
  | nil => simpa
  | cons k0 rest ih => exact ih (kvKeys_kvDel_nodup k0 hnd)

theorem mem_setFold_weak {ks : List κ} {v : α} {idx : List (κ × α)}
    {a : κ × α} (h : a ∈ ks.foldl (fun x ik => kvSet x ik v) idx) :
    (a.1 ∈ ks ∧ a.2 = v) ∨ a ∈ idx := by
  induction ks generalizing idx with
  | nil => exact Or.inr (by simpa using h)
  | cons k0 rest ih =>
    simp only [List.foldl_cons] at h
    rcases ih h with h1 | h1
    · exact Or.inl ⟨List.mem_cons.mpr (Or.inr h1.1), h1.2⟩
    · rcases mem_kvSet_weak h1 with h2 | h2
      · exact Or.inl ⟨by simp [h2], by simp [h2]⟩
      · exact Or.inr h2

theorem mem_delFold_sub {ks : List κ} {idx : List (κ × α)} {a : κ × α}
    (h : a ∈ ks.foldl (fun x ik => kvDel x ik) idx) : a ∈ idx := by
  induction ks generalizing idx with
  | nil => simpa using h
  | cons k0 rest ih =>
    simp only [List.foldl_cons] at h
    exact (mem_kvDel (ih h)).1

end KVMore

end Apiary

namespace Apiary

/-! ## Theorems: stacks index consistency -/

theorem name_mem_stackIndexes {m : StackRec} {n : String}
    (h : StackIdxKey.name n ∈ stackIndexes m) : n = m.name := by
  simp [stackIndexes] at h
  exact h

theorem status_mem_stackIndexes {m : StackRec} {s : StackStatus} {i : Nat}
    (h : StackIdxKey.status s i ∈ stackIndexes m) :
    s = m.status ∧ i = m.id := by
  simp [stackIndexes] at h
  exact h

theorem label_mem_stackIndexes {m : StackRec} {k v : String} {i : Nat}
    (h : StackIdxKey.label k v i ∈ stackIndexes m) : i = m.id := by
  simp [stackIndexes] at h
  obtain ⟨a, b, hmem, _, _, hid⟩ := h
  exact hid.symm

theorem stackIndexes_overlap {m m' : StackRec} {ik : StackIdxKey}
    (h1 : ik ∈ stackIndexes m) (h2 : ik ∈ stackIndexes m') :
    m.name = m'.name ∨ m.id = m'.id := by
  cases ik with
  | name n =>
    exact Or.inl ((name_mem_stackIndexes h1).symm.trans
      (name_mem_stackIndexes h2))
  | status s i =>
    exact Or.inr ((status_mem_stackIndexes h1).2.symm.trans
      (status_mem_stackIndexes h2).2)
  | label k v i =>
    exact Or.inr ((label_mem_stackIndexes h1).symm.trans
      (label_mem_stackIndexes h2))

theorem name_self_mem_stackIndexes (m : StackRec) :
    StackIdxKey.name m.name ∈ stackIndexes m := by
  simp [stackIndexes]

/-- No live record of a consistent store sits under an id whose primary
read misses. -/
theorem stacks_no_dangling (db : StackDB) (hok : StacksIdxOK db)
    {ik : StackIdxKey} {pk : Nat} (h : kvGet db.idx ik = some pk) :
    ∃ m, kvGet db.recs pk = some m ∧ ik ∈ stackIndexes m := by
  obtain ⟨hN1, _, _, hCs, _⟩ := hok
  obtain ⟨p, hp, hpk, hik⟩ := hCs (ik, pk) (mem_of_kvGet_eq_some h)
  refine ⟨p.2, ?_, hik⟩
  apply kvGet_eq_some_of_mem hN1
  have hpk2 : p.1 = pk := hpk
  rw [← hpk2]
  exact hp

theorem stacksCreateFx_preserves (db : StackDB) (d : StackDraftRec)
    (freshId now : Nat) (hok : StacksIdxOK db)
    (hfresh : kvGet db.recs freshId = none) :
    StacksIdxOK (stacksCreateFx db d freshId now).2 := by
  cases hn : kvGet db.idx (.name (newStackModelFx d freshId now).name) with
  | some pk =>
    obtain ⟨s, hs, _⟩ := stacks_no_dangling db hok hn
    have hread : fxReadByIndex db
        (.name (newStackModelFx d freshId now).name) = some s := by
      simp [fxReadByIndex, hn, hs]
    simpa [stacksCreateFx, hread] using hok
  | none =>
    have hread : fxReadByIndex db
        (.name (newStackModelFx d freshId now).name) = none := by
      simp [fxReadByIndex, hn]
    obtain ⟨hN1, hN2, hC0, hCs, hCc⟩ := hok
    set m := newStackModelFx d freshId now with hm
    have hmid : m.id = freshId := rfl
    have hread2 : fxReadByIndex db (StackIdxKey.name d.name) = none := hread
    have hrecs : (stacksCreateFx db d freshId now).2.recs =
        kvSet db.recs freshId m := by
      simp [stacksCreateFx, hread2, fxWrite, fxCreateIndexes, hm,
        newStackModelFx]
    have hidx : (stacksCreateFx db d freshId now).2.idx =
        (stackIndexes m).foldl (fun a ik => kvSet a ik freshId) db.idx := by
      simp [stacksCreateFx, hread2, fxWrite, fxCreateIndexes, hm,
        newStackModelFx]
    rw [StacksIdxOK, hrecs, hidx]
    have hfreshmem : ∀ q ∈ db.recs, q.1 ≠ freshId := by
      intro q hq he
      have : kvGet db.recs freshId = some q.2 := by
        apply kvGet_eq_some_of_mem hN1
        rw [← he]
        exact hq
      rw [hfresh] at this
      exact Option.noConfusion this
    refine ⟨kvKeys_kvSet_nodup _ _ hN1, setFold_keys_nodup _ _ hN2, ?_, ?_, ?_⟩
    · intro p hp
      rcases mem_kvSet_weak hp with h | h
      · rw [h]
        exact hmid
      · exact hC0 p h
    · intro e he
      rcases mem_setFold_weak he with h | h
      · exact ⟨(freshId, m), mem_kvSet_self _ _ _, h.2.symm, h.1⟩
      · obtain ⟨p, hp, hpk, hik⟩ := hCs e h
        exact ⟨p, mem_kvSet_of_mem_ne hp (hfreshmem p hp), hpk, hik⟩
    · intro p hp ik hik
      rw [kvGet_setFold]
      rcases mem_kvSet_strong hN1 hp with h | h
      · rw [h] at hik ⊢
        rw [if_pos hik]
      · have hnotm : ik ∉ stackIndexes m := by
          intro hikm
          rcases stackIndexes_overlap hik hikm with hname | hid
          · have h1 : kvGet db.idx (.name (p.2).name) = some p.1 :=
              hCc p h.1 _ (name_self_mem_stackIndexes p.2)
            rw [hname] at h1
            rw [h1] at hn
            exact Option.noConfusion hn
          · have : p.1 = freshId := by
              rw [← hC0 p h.1, hid, hmid]
            exact hfreshmem p h.1 this
        rw [if_neg hnotm]
        exact hCc p h.1 ik hik

theorem stacksUpdateFx_preserves (db : StackDB) (id : Nat)
    (f : StackRec → Except String StackRec) (now : Nat)
    (hok : StacksIdxOK db)
    (hside : ∀ old, kvGet db.recs id = some old → ∀ st, f old = .ok st →
      ∀ q ∈ db.recs, (q.2).name = st.name → q.1 = id) :
    StacksIdxOK (stacksUpdateFx db id f now).2 := by
  cases hold : kvGet db.recs id with
  | none => simpa [stacksUpdateFx, hold] using hok
  | some old =>
    cases hf : f old with
    | error e => simpa [stacksUpdateFx, hold, hf] using hok
    | ok st =>
      obtain ⟨hN1, hN2, hC0, hCs, hCc⟩ := hok
      have holdmem : (id, old) ∈ db.recs := mem_of_kvGet_eq_some hold
      have holdid : old.id = id := hC0 (id, old) holdmem
      have hkid : ({ newStackModelFx st.draft old.id old.createdAt with
          updatedAt := now } : StackRec).id = id := holdid
      have hrecs : (stacksUpdateFx db id f now).2.recs =
          kvSet db.recs id
            ({ newStackModelFx st.draft old.id old.createdAt with
               updatedAt := now } : StackRec) := by
        simp only [stacksUpdateFx, hold, hf, fxWrite, fxCreateIndexes,
          fxDeleteIndexes]
        rw [hkid]
      have hidx : (stacksUpdateFx db id f now).2.idx =
          (stackIndexes ({ newStackModelFx st.draft old.id old.createdAt with
            updatedAt := now } : StackRec)).foldl (fun a ik => kvSet a ik id)
            ((stackIndexes old).foldl (fun a ik => kvDel a ik) db.idx) := by
        simp only [stacksUpdateFx, hold, hf, fxWrite, fxCreateIndexes,
          fxDeleteIndexes]
        rw [hkid]
      set m : StackRec :=
        { newStackModelFx st.draft old.id old.createdAt with
          updatedAt := now } with hm
      have hmid : m.id = id := hkid
      have hmname : m.name = st.name := rfl
      rw [StacksIdxOK, hrecs, hidx]
      refine ⟨kvKeys_kvSet_nodup _ _ hN1,
        setFold_keys_nodup _ _ (delFold_keys_nodup _ hN2), ?_, ?_, ?_⟩
      · intro p hp
        rcases mem_kvSet_weak hp with h | h
        · rw [h]
          exact hmid
        · exact hC0 p h
      · intro e he
        rcases mem_setFold_weak he with h | h
        · exact ⟨(id, m), mem_kvSet_self _ _ _, h.2.symm, h.1⟩
        · have hkeep := mem_delFold_sub h
          obtain ⟨p, hp, hpk, hik⟩ := hCs e hkeep
          by_cases hpid : p.1 = id
          · exfalso
            have hpold : p.2 = old := by
              have hx : kvGet db.recs id = some p.2 := by
                apply kvGet_eq_some_of_mem hN1
                rw [← hpid]
                exact hp
              rw [hold] at hx
              exact (Option.some.inj hx).symm
            have hikold : e.1 ∈ stackIndexes old := by
              rw [← hpold]
              exact hik
            have hz : kvGet ((stackIndexes old).foldl
                (fun a ik => kvDel a ik) db.idx) e.1 = none := by
              rw [kvGet_delFold, if_pos hikold]
            exact (not_mem_keys_of_kvGet_eq_none hz)
              (List.mem_map.mpr ⟨e, h, rfl⟩)
          · exact ⟨p, mem_kvSet_of_mem_ne hp hpid, hpk, hik⟩
      · intro p hp ik hik
        rw [kvGet_setFold, kvGet_delFold]
        rcases mem_kvSet_strong hN1 hp with h | h
        · rw [h] at hik ⊢
          rw [if_pos hik]
        · have hnotm : ik ∉ stackIndexes m := by
            intro hikm
            rcases stackIndexes_overlap hik hikm with hname | hid
            · have hx : p.1 = id := by
                apply hside old hold st hf p h.1
                rw [← hmname]
                exact hname
              exact h.2 hx
            · have hx : p.1 = id := by
                rw [← hC0 p h.1, hid, hmid]
              exact h.2 hx
          have hnotold : ik ∉ stackIndexes old := by
            intro hikold
            have h1 : kvGet db.idx ik = some id :=
              holdid ▸ hCc (id, old) holdmem ik hikold
            have h2 : kvGet db.idx ik = some p.1 := hCc p h.1 ik hik
            rw [h1] at h2
            exact h.2 (Option.some.inj h2).symm
          rw [if_neg hnotm, if_neg hnotold]
          exact hCc p h.1 ik hik

theorem stacksDeleteFx_preserves (db : StackDB) (id : Nat)
    (hok : StacksIdxOK db) :
    StacksIdxOK (stacksDeleteFx db id).2 := by
  cases hold : kvGet db.recs id with
  | none => simpa [stacksDeleteFx, hold] using hok
  | some old =>
    obtain ⟨hN1, hN2, hC0, hCs, hCc⟩ := hok
    have holdmem : (id, old) ∈ db.recs := mem_of_kvGet_eq_some hold
    have holdid : old.id = id := hC0 (id, old) holdmem
    have hrecs : (stacksDeleteFx db id).2.recs = kvDel db.recs id := by
      simp [stacksDeleteFx, hold, fxDeleteIndexes]
    have hidx : (stacksDeleteFx db id).2.idx =
        (stackIndexes old).foldl (fun a ik => kvDel a ik) db.idx := by
      simp [stacksDeleteFx, hold, fxDeleteIndexes]
    rw [StacksIdxOK, hrecs, hidx]
    refine ⟨kvKeys_kvDel_nodup _ hN1, delFold_keys_nodup _ hN2, ?_, ?_, ?_⟩
    · intro p hp
      exact hC0 p (mem_kvDel hp).1
    · intro e he
      have hkeep := mem_delFold_sub he
      obtain ⟨p, hp, hpk, hik⟩ := hCs e hkeep
      by_cases hpid : p.1 = id
      · exfalso
        have hpold : p.2 = old := by
          have : kvGet db.recs id = some p.2 := by
            apply kvGet_eq_some_of_mem hN1
            rw [← hpid]
            exact hp
          rw [hold] at this
          exact (Option.some.inj this).symm
        have hikold : e.1 ∈ stackIndexes old := by
          rw [← hpold]
          exact hik
        have hz : kvGet ((stackIndexes old).foldl
            (fun a ik => kvDel a ik) db.idx) e.1 = none := by
          rw [kvGet_delFold, if_pos hikold]
        exact (not_mem_keys_of_kvGet_eq_none hz)
          (List.mem_map.mpr ⟨e, he, rfl⟩)
      · exact ⟨p, mem_kvDel_of_ne hp hpid, hpk, hik⟩
    · intro p hp ik hik
      obtain ⟨hpmem, hpid⟩ := mem_kvDel hp
      rw [kvGet_delFold]
      have hnotold : ik ∉ stackIndexes old := by
        intro hikold
        have h1 : kvGet db.idx ik = some id :=
          holdid ▸ hCc (id, old) holdmem ik hikold
        have h2 : kvGet db.idx ik = some p.1 := hCc p hpmem ik hik
        rw [h1] at h2
        exact hpid (Option.some.inj h2).symm
      rw [if_neg hnotold]
      exact hCc p hpmem ik hik

end Apiary

namespace Apiary

/-! ## Theorems: deployments index consistency -/

theorem depCreate_preserves (db : DepDB) (d : DepDraft) (freshId now : Nat)
    (hok : DepIdxOK db)
    (hfresh : kvGet db.recs freshId = none)
    (hkey : ∀ p ∈ db.recs, (p.2).stackId = d.stackId →
      (p.2).createdAt ≠ now) :
    DepIdxOK (depCreate db d freshId now).2 := by
  obtain ⟨hN1, hN2, hC0, hCs, hCc, hInj⟩ := hok
  have hrecs : (depCreate db d freshId now).2.recs =
      kvSet db.recs freshId (newDepModel d freshId now) := by
    simp [depCreate, depWrite, depCreateIndexes, newDepModel]
  have hidx : (depCreate db d freshId now).2.stackIdx =
      kvSet db.stackIdx (d.stackId, now) freshId := by
    simp [depCreate, depWrite, depCreateIndexes, newDepModel]
  have hfreshmem : ∀ q ∈ db.recs, q.1 ≠ freshId := by
    intro q hq he
    have hx : kvGet db.recs freshId = some q.2 := by
      apply kvGet_eq_some_of_mem hN1
      rw [← he]
      exact hq
    rw [hfresh] at hx
    exact Option.noConfusion hx
  set m := newDepModel d freshId now with hm
  rw [DepIdxOK, hrecs, hidx]
  have hmflds : m.id = freshId ∧ m.stackId = d.stackId ∧
      m.createdAt = now := ⟨rfl, rfl, rfl⟩
  refine ⟨kvKeys_kvSet_nodup _ _ hN1, kvKeys_kvSet_nodup _ _ hN2,
    ?_, ?_, ?_, ?_⟩
  · intro p hp
    rcases mem_kvSet_weak hp with h | h
    · rw [h]
      exact hmflds.1
    · exact hC0 p h
  · intro e he
    rcases mem_kvSet_strong hN2 he with h | h
    · refine ⟨(freshId, m), mem_kvSet_self _ _ _, ?_, ?_, ?_⟩
      · rw [h]
      · rw [h, hmflds.2.1]
      · rw [h, hmflds.2.2]
    · obtain ⟨p, hp, hpk, hpsid, hptime⟩ := hCs e h.1
      exact ⟨p, mem_kvSet_of_mem_ne hp (hfreshmem p hp), hpk, hpsid, hptime⟩
  · intro p hp
    rcases mem_kvSet_strong hN1 hp with h | h
    · rw [h]
      rw [show (freshId, m).2 = m from rfl, hmflds.2.1, hmflds.2.2,
        kvGet_kvSet, if_pos rfl]
    · have hne : ((p.2).stackId, (p.2).createdAt) ≠ (d.stackId, now) := by
        intro he
        have h1 := congrArg Prod.fst he
        have h2 := congrArg Prod.snd he
        exact hkey p h.1 h1 h2
      rw [kvGet_kvSet, if_neg (fun he => hne he.symm)]
      exact hCc p h.1
  · intro p hp q hq hsid htime
    rcases mem_kvSet_strong hN1 hp with h1 | h1 <;>
      rcases mem_kvSet_strong hN1 hq with h2 | h2
    · rw [h1, h2]
    · exfalso
      rw [h1] at hsid htime
      have hq2 : (q.2).stackId = d.stackId := by
        rw [← hsid, hmflds.2.1]
      have hq3 : (q.2).createdAt = now := by
        rw [← htime, hmflds.2.2]
      exact hkey q h2.1 hq2 hq3
    · exfalso
      rw [h2] at hsid htime
      have hp2 : (p.2).stackId = d.stackId := by
        rw [hsid, hmflds.2.1]
      have hp3 : (p.2).createdAt = now := by
        rw [htime, hmflds.2.2]
      exact hkey p h1.1 hp2 hp3
    · exact hInj p h1.1 q h2.1 hsid htime

theorem depUpdate_preserves (db : DepDB) (id : Nat)
    (f : DepRec → Except String DepRec) (now : Nat)
    (hok : DepIdxOK db) :
    DepIdxOK (applyDepOp db (.update id f now)) := by
  cases hold : kvGet db.recs id with
  | none => simpa [applyDepOp, depUpdate, hold] using hok
  | some old =>
    cases hf : f old with
    | error e => simpa [applyDepOp, depUpdate, hold, hf] using hok
    | ok st =>
      by_cases hguard : st.stackId = old.stackId
      case neg =>
        simpa [applyDepOp, depUpdate, hold, hf, hguard] using hok
      case pos =>
        obtain ⟨hN1, hN2, hC0, hCs, hCc, hInj⟩ := hok
        have holdmem : (id, old) ∈ db.recs := mem_of_kvGet_eq_some hold
        have holdid : old.id = id := hC0 (id, old) holdmem
        have hkid : ({ newDepModel st.draft old.id old.createdAt with
            updatedAt := now } : DepRec).id = id := holdid
        have hidxold : kvGet db.stackIdx (old.stackId, old.createdAt) =
            some id := by
          have := hCc (id, old) holdmem
          simpa using this
        have hrecs : (applyDepOp db (.update id f now)).recs =
            kvSet db.recs id
              ({ newDepModel st.draft old.id old.createdAt with
                 updatedAt := now } : DepRec) := by
          simp only [applyDepOp, depUpdate, hold, hf, hguard,
            depWrite, depCreateIndexes]
          rw [if_neg (by simp [hguard])]
          rw [hkid]
        have hidx : (applyDepOp db (.update id f now)).stackIdx =
            db.stackIdx := by
          simp only [applyDepOp, depUpdate, hold, hf, hguard,
            depWrite, depCreateIndexes]
          rw [if_neg (by simp [hguard])]
          have hk : (({ newDepModel st.draft old.id old.createdAt with
              updatedAt := now } : DepRec).stackId,
              ({ newDepModel st.draft old.id old.createdAt with
              updatedAt := now } : DepRec).createdAt) =
              (old.stackId, old.createdAt) := by
            simp [newDepModel, DepRec.draft, hguard]
          rw [hkid, hk]
          exact kvSet_eq_of_kvGet hidxold
        set m : DepRec :=
          { newDepModel st.draft old.id old.createdAt with
            updatedAt := now } with hm
        have hmsid : m.stackId = old.stackId := hguard
        have hmtime : m.createdAt = old.createdAt := rfl
        have hmid : m.id = id := hkid
        rw [DepIdxOK, hrecs, hidx]
        refine ⟨kvKeys_kvSet_nodup _ _ hN1, hN2, ?_, ?_, ?_, ?_⟩
        · intro p hp
          rcases mem_kvSet_weak hp with h | h
          · rw [h]
            exact hmid
          · exact hC0 p h
        · intro e he
          obtain ⟨p, hp, hpk, hpsid, hptime⟩ := hCs e he
          by_cases hpid : p.1 = id
          · have hpold : p.2 = old := by
              have hx : kvGet db.recs id = some p.2 := by
                apply kvGet_eq_some_of_mem hN1
                rw [← hpid]
                exact hp
              rw [hold] at hx
              exact (Option.some.inj hx).symm
            refine ⟨(id, m), mem_kvSet_self _ _ _, ?_, ?_, ?_⟩
            · rw [← hpid]
              exact hpk
            · show m.stackId = e.1.1
              rw [hmsid, ← hpold]
              exact hpsid
            · show m.createdAt = e.1.2
              rw [hmtime, ← hpold]
              exact hptime
          · exact ⟨p, mem_kvSet_of_mem_ne hp hpid, hpk, hpsid, hptime⟩
        · intro p hp
          rcases mem_kvSet_strong hN1 hp with h | h
          · rw [h]
            show kvGet db.stackIdx (m.stackId, m.createdAt) = some id
            rw [hmsid, hmtime]
            exact hidxold
          · exact hCc p h.1
        · intro p hp q hq hsid htime
          rcases mem_kvSet_strong hN1 hp with h1 | h1 <;>
            rcases mem_kvSet_strong hN1 hq with h2 | h2
          · rw [h1, h2]
          · exfalso
            rw [h1] at hsid htime
            have : old = q.2 := by
              refine hInj (id, old) holdmem q h2.1 ?_ ?_
              · show old.stackId = (q.2).stackId
                rw [← hmsid]
                exact hsid
              · show old.createdAt = (q.2).createdAt
                rw [← hmtime]
                exact htime
            have hq1 : q.1 = id := by
              rw [← hC0 q h2.1, ← this, holdid]
            exact h2.2 hq1
          · exfalso
            rw [h2] at hsid htime
            have : old = p.2 := by
              refine hInj (id, old) holdmem p h1.1 ?_ ?_
              · show old.stackId = (p.2).stackId
                rw [← hmsid]
                exact hsid.symm
              · show old.createdAt = (p.2).createdAt
                rw [← hmtime]
                exact htime.symm
            have hp1 : p.1 = id := by
              rw [← hC0 p h1.1, ← this, holdid]
            exact h1.2 hp1
          · exact hInj p h1.1 q h2.1 hsid htime

theorem depDelete_preserves (db : DepDB) (id : Nat) (hok : DepIdxOK db) :
    DepIdxOK (depDelete db id).2 := by
  cases hold : kvGet db.recs id with
  | none => simpa [depDelete, hold] using hok
  | some old =>
    obtain ⟨hN1, hN2, hC0, hCs, hCc, hInj⟩ := hok
    have holdmem : (id, old) ∈ db.recs := mem_of_kvGet_eq_some hold
    have holdid : old.id = id := hC0 (id, old) holdmem
    have hrecs : (depDelete db id).2.recs = kvDel db.recs id := by
      simp [depDelete, hold, depRemoveIndexes]
    have hidx : (depDelete db id).2.stackIdx =
        kvDel db.stackIdx (old.stackId, old.createdAt) := by
      simp [depDelete, hold, depRemoveIndexes]
    rw [DepIdxOK, hrecs, hidx]
    refine ⟨kvKeys_kvDel_nodup _ hN1, kvKeys_kvDel_nodup _ hN2, ?_, ?_, ?_, ?_⟩
    · intro p hp
      exact hC0 p (mem_kvDel hp).1
    · intro e he
      obtain ⟨hemem, hene⟩ := mem_kvDel he
      obtain ⟨p, hp, hpk, hpsid, hptime⟩ := hCs e hemem
      by_cases hpid : p.1 = id
      · exfalso
        have hpold : p.2 = old := by
          have hx : kvGet db.recs id = some p.2 := by
            apply kvGet_eq_some_of_mem hN1
            rw [← hpid]
            exact hp
          rw [hold] at hx
          exact (Option.some.inj hx).symm
        apply hene
        have h1 : e.1.1 = old.stackId := by
          rw [← hpsid, hpold]
        have h2 : e.1.2 = old.createdAt := by
          rw [← hptime, hpold]
        calc e.1 = (e.1.1, e.1.2) := rfl
          _ = (old.stackId, old.createdAt) := by rw [h1, h2]
      · exact ⟨p, mem_kvDel_of_ne hp hpid, hpk, hpsid, hptime⟩
    · intro p hp
      obtain ⟨hpmem, hpne⟩ := mem_kvDel hp
      rw [kvGet_kvDel]
      have hne : ((p.2).stackId, (p.2).createdAt) ≠
          (old.stackId, old.createdAt) := by
        intro he
        have : p.2 = old := by
          refine hInj p hpmem (id, old) holdmem ?_ ?_
          · exact congrArg Prod.fst he
          · exact congrArg Prod.snd he
        apply hpne
        rw [← hC0 p hpmem, this, holdid]
      rw [if_neg (fun he => hne he.symm)]
      exact hCc p hpmem
    · intro p hp q hq hsid htime
      exact hInj p (mem_kvDel hp).1 q (mem_kvDel hq).1 hsid htime

end Apiary

namespace Apiary

/-! ## Theorems: index consistency under operation sequences -/

theorem applyStackOp_preserves (db : StackDB) (op : StackOp)
    (hok : StacksIdxOK db) (hop : stackOpOK db op = true) :
    StacksIdxOK (applyStackOp db op) := by
  cases op with
  | create d i n =>
    have hfresh : kvGet db.recs i = none := by
      simpa [stackOpOK, Option.isNone_iff_eq_none] using hop
    exact stacksCreateFx_preserves db d i n hok hfresh
  | update id f n =>
    apply stacksUpdateFx_preserves db id f n hok
    intro old hold st hf q hq hname
    simp only [stackOpOK, List.all_eq_true] at hop
    have h1 := hop (id, old) (mem_of_kvGet_eq_some hold)
    rw [if_pos rfl] at h1
    simp only [hf, List.all_eq_true] at h1
    exact of_decide_eq_true (h1 q hq) hname
  | delete id => exact stacksDeleteFx_preserves db id hok

theorem applyDepOp_preserves (db : DepDB) (op : DepOp)
    (hok : DepIdxOK db) (hop : depOpOK db op = true) :
    DepIdxOK (applyDepOp db op) := by
  cases op with
  | create d i n =>
    simp only [depOpOK, Bool.and_eq_true, Option.isNone_iff_eq_none,
      List.all_eq_true] at hop
    apply depCreate_preserves db d i n hok hop.1
    intro p hp hsid
    exact of_decide_eq_true (hop.2 p hp) hsid
  | update id f n => exact depUpdate_preserves db id f n hok
  | delete id => exact depDelete_preserves db id hok

theorem stackOps_preserve (ops : List StackOp) (db : StackDB)
    (hok : StacksIdxOK db) (hops : stackOpsOK db ops = true) :
    StacksIdxOK (ops.foldl applyStackOp db) := by
  induction ops generalizing db with
  | nil => simpa using hok
  | cons op rest ih =>
    simp only [stackOpsOK, Bool.and_eq_true] at hops
    exact ih (applyStackOp db op)
      (applyStackOp_preserves db op hok hops.1) hops.2

theorem depOps_preserve (ops : List DepOp) (db : DepDB)
    (hok : DepIdxOK db) (hops : depOpsOK db ops = true) :
    DepIdxOK (ops.foldl applyDepOp db) := by
  induction ops generalizing db with
  | nil => simpa using hok
  | cons op rest ih =>
    simp only [depOpsOK, Bool.and_eq_true] at hops
    exact ih (applyDepOp db op)
      (applyDepOp_preserves db op hok hops.1) hops.2

/-- Claim C7: under any sequence of create/update/delete repository
operations (with fresh generated ids, distinct per-stack creation stamps,
and no update moving a stack's name onto a different live stack's name —
the environment guarantees of the running system), both stores keep the
secondary-index sets exactly equal to the sets derived from the live
records: every index entry resolves to a live record deriving it and
every live record's derived entries are present (`StacksIdxOK`,
`DepIdxOK`), so an index lookup never sees a stale entry and never misses
a live one.  The stacks `Update` deletes the pre-mutation index set
before writing the new one; the deployments `Update` performs no
deletion, but its only index key is built from the immutable
`StackID`/`CreatedAt`, so its write lands on the existing entry and the
same invariant is preserved. -/
theorem index_entries_match_live_records
    (sdb : StackDB) (sops : List StackOp) (ddb : DepDB) (dops : List DepOp)
    (hs : StacksIdxOK sdb) (hsops : stackOpsOK sdb sops = true)
    (hd : DepIdxOK ddb) (hdops : depOpsOK ddb dops = true) :
    StacksIdxOK (sops.foldl applyStackOp sdb) ∧
    DepIdxOK (dops.foldl applyDepOp ddb) :=
  ⟨stackOps_preserve sops sdb hs hsops, depOps_preserve dops ddb hd hdops⟩

theorem index_entries_match_live_records_witness :
    StacksIdxOK
      (([StackOp.create
          { name := "web", description := "", gitURL := "", gitBranch := "main",
            gitAuth := { type := "none", username := "", password := "",
                         privateKeyPath := "", passphrase := "" },
            composePath := "c.yml", vars := [], labels := [("team", "a")] }
          1 10,
        StackOp.update 1
          (fun s => .ok { s with
                          description := "updated"
                          labels := [("team", "b")] }) 11,
        StackOp.delete 1] : List StackOp).foldl applyStackOp
        { recs := [], idx := [] }) ∧
    DepIdxOK
      (([DepOp.create
          { stackId := 1, version := "v1", gitRef := "main", message := "",
            vars := [], status := .pending, startedAt := some 5,
            completedAt := none, errMsg := "", logs := [],
            previousDeployment := none } 10 5,
        DepOp.update 10 (fun d => .ok (markDeployedAt d 6)) 6,
        DepOp.delete 10] : List DepOp).foldl applyDepOp
        { recs := [], stackIdx := [] }) :=
  index_entries_match_live_records _ _ _ _
    (by unfold StacksIdxOK; decide) (by decide)
    (by unfold DepIdxOK; decide) (by decide)

end Apiary
